import Mathlib

/-
Verification of the shader-repair core of the Aurora Borealis Bliss
screensaver (source/main.go) against its natural-language specification.

The Go code is shallowly embedded: shader text is modelled as List Char
(Go indexes strings byte-wise; all branching in the embedded code is on
ASCII characters, so a character list is behaviour-preserving), Go
https://pkg.go.dev/strings functions and the fixed regular expressions of
main.go are implemented as executable Lean functions with the exact
matching semantics of the patterns, and the repair passes are explicit
folds over the line array mirroring the Go loops statement by statement.
-/

/-! ## Basic character classes and Go string helpers -/

/-- Word characters of the Go regexp class backslash-w (ASCII letters, digits, underscore). -/
def isWordChar (c : Char) : Bool :=
  (('a' ≤ c && c ≤ 'z') || ('A' ≤ c && c ≤ 'Z') || ('0' ≤ c && c ≤ '9') || c == '_')

/-- Identifier head characters of the class [a-zA-Z_]. -/
def isIdentStart (c : Char) : Bool :=
  (('a' ≤ c && c ≤ 'z') || ('A' ≤ c && c ≤ 'Z') || c == '_')

/-- Whitespace of the Go regexp class backslash-s: tab, newline, form feed, carriage return, space. -/
def isSpaceRE (c : Char) : Bool :=
  c == ' ' || c == '\t' || c == '\n' || c == '\x0c' || c == '\r'

/-- Whitespace accepted by Go unicode.IsSpace, used by strings.TrimSpace. -/
def isGoSpace (c : Char) : Bool :=
  c == '\t' || c == '\n' || c == '\x0b' || c == '\x0c' || c == '\r' || c == ' ' ||
  c.toNat == 0x85 || c.toNat == 0xa0 || c.toNat == 0x1680 ||
  (0x2000 ≤ c.toNat && c.toNat ≤ 0x200a) ||
  c.toNat == 0x2028 || c.toNat == 0x2029 || c.toNat == 0x202f ||
  c.toNat == 0x205f || c.toNat == 0x3000

/-- Embedding of Go strings.TrimSpace on character lists. -/
def trimSpace (l : List Char) : List Char :=
  ((l.dropWhile isGoSpace).reverse.dropWhile isGoSpace).reverse

/-- Embedding of Go strings.TrimLeft with cutset " \t" (used for indentation width). -/
def trimLeftSpTab (l : List Char) : List Char :=
  l.dropWhile (fun c => c == ' ' || c == '\t')

/-- Prefix test on character lists (Go strings.HasPrefix). -/
def isPrefL : List Char → List Char → Bool
  | [], _ => true
  | _ :: _, [] => false
  | a :: as, b :: bs => a == b && isPrefL as bs

/-- Suffix test on character lists (Go strings.HasSuffix). -/
def isSuffL (p l : List Char) : Bool :=
  isPrefL p.reverse l.reverse

/-- Embedding of Go strings.Contains on character lists. -/
def containsSub : List Char → List Char → Bool
  | [], sub => sub.isEmpty
  | c :: rest, sub => isPrefL sub (c :: rest) || containsSub rest sub

/-- Embedding of Go strings.Index on character lists; none models the -1 result. -/
def indexOfSub : List Char → List Char → Option Nat
  | [], sub => if sub.isEmpty then some 0 else none
  | c :: rest, sub =>
    if isPrefL sub (c :: rest) then some 0
    else (indexOfSub rest sub).map (· + 1)

/-- Embedding of Go strings.Replace with count 1: replace the first occurrence only. -/
def replaceFirst : List Char → List Char → List Char → List Char
  | [], _, _ => []
  | c :: rest, old, new =>
    if isPrefL old (c :: rest) then new ++ (c :: rest).drop old.length
    else c :: replaceFirst rest old new

/-- Splitting helper: the first line and the remaining lines. -/
def splitNlA : List Char → List Char × List (List Char)
  | [] => ([], [])
  | '\n' :: rest => ([], (splitNlA rest).1 :: (splitNlA rest).2)
  | c :: rest => (c :: (splitNlA rest).1, (splitNlA rest).2)

/-- Embedding of Go strings.Split with separator a single newline. -/
def splitNl (l : List Char) : List (List Char) :=
  (splitNlA l).1 :: (splitNlA l).2

/-- Embedding of Go strings.Join with separator a single newline. -/
def joinNl (ls : List (List Char)) : List Char :=
  List.intercalate ['\n'] ls

/-- Count of occurrences of a single character, matching Go strings.Count for a one-character substring. -/
def countChar (l : List Char) (c : Char) : Nat :=
  l.countP (fun d => d == c)

/-! ## Comment stripper (main.go removeComments, lines 326 to 372)

Go processes the text line by line with an in-block-comment flag carried
across lines; inside a line a cursor walks the characters, consuming
block-comment openers and closers and cutting the line at a line-comment
start. -/

/-- Character loop of removeComments on one line: returns the emitted
characters and the block-comment state after the line. -/
def stripLineChars : Bool → List Char → List Char × Bool
  | true, '*' :: '/' :: rest => stripLineChars false rest
  | true, _ :: rest => stripLineChars true rest
  | true, [] => ([], true)
  | false, '/' :: '*' :: rest => stripLineChars true rest
  | false, '/' :: '/' :: _ => ([], false)
  | false, c :: rest =>
    let p := stripLineChars false rest
    (c :: p.1, p.2)
  | false, [] => ([], false)

/-- Line loop of removeComments: a processed line is appended (followed by a
newline) when its trimmed content is nonempty or no block comment is open
after it, exactly as the condition on line 365 of main.go. -/
def removeCommentsLines : Bool → List (List Char) → List Char
  | _, [] => []
  | inB, l :: rest =>
    let p := stripLineChars inB l
    (if !(trimSpace p.1).isEmpty || p.2 == false then p.1 ++ ['\n'] else []) ++
      removeCommentsLines p.2 rest

/-- Embedding of main.go removeComments. -/
def removeComments (code : String) : String :=
  ⟨removeCommentsLines false (splitNl code.data)⟩

/-! ## String-literal escaper (main.go preprocessJSON, lines 236 to 296) -/

/-- Lowercase hexadecimal digit, as produced by the Go format verb %04x. -/
def hexDigit (n : Nat) : Char :=
  "0123456789abcdef".data.getD n '0'

/-- Rewriting applied by preprocessJSON to a character while inside a string
literal (and not escape-consumed, and not a quote or backslash). -/
def ppEmitInString (c : Char) : List Char :=
  if c = '\n' then ['\\', 'n']
  else if c = '\r' then ['\\', 'r']
  else if c = '\t' then ['\\', 't']
  else if c.toNat < 0x20 then
    ['\\', 'u', '0', '0', hexDigit (c.toNat / 16), hexDigit (c.toNat % 16)]
  else [c]

/-- One step of the preprocessJSON state machine. The first argument is the
reversed prefix of the original input before the current character (the Go
code counts consecutive backslashes backwards in the original string when
it sees a quote). Returns the new in-string flag, the new escape-next flag
and the emitted characters. -/
def ppStep (prev : List Char) (inS esc : Bool) (c : Char) : Bool × Bool × List Char :=
  if esc then (inS, false, [c])
  else if c = '\\' then (inS, true, [c])
  else if c = '"' then
    let bs := (prev.takeWhile (fun d => d == '\\')).length
    ((if bs % 2 = 0 then !inS else inS), false, [c])
  else if inS then (inS, false, ppEmitInString c)
  else (inS, false, [c])

/-- Main loop of preprocessJSON. -/
def ppLoop (prev : List Char) (inS esc : Bool) : List Char → List Char
  | [] => []
  | c :: rest =>
    let r := ppStep prev inS esc c
    r.2.2 ++ ppLoop (c :: prev) r.1 r.2.1 rest

/-- Embedding of main.go preprocessJSON; the second component models the Go
error result, which is always nil (the function has a single return). -/
def preprocessJSON (data : String) : String × Option String :=
  (⟨ppLoop [] false false data.data⟩, none)

/-- Observer over the preprocessJSON machine: true when some step taken in
the in-string, non-escape-consumed state emits a raw control byte. -/
def ppRawControlInString (prev : List Char) (inS esc : Bool) : List Char → Bool
  | [] => false
  | c :: rest =>
    let r := ppStep prev inS esc c
    (inS && !esc && r.2.2.any (fun d => decide (d.toNat < 0x20))) ||
      ppRawControlInString (c :: prev) r.1 r.2.1 rest

/-! ## Matchers for the fixed regular expressions of main.go

Every pattern in main.go is a fixed regular expression; each is embedded
as a direct scanner with the left-to-right, leftmost-match semantics of
the Go regexp package. Greedy repetition needs no backtracking in these
patterns because every repetition boundary is forced (word characters,
whitespace and the closing punctuation are disjoint classes); the only
non-forced repetition, in the expression group of the assignment patterns,
is resolved explicitly in parseExprSemi below. -/

/-- Generic scanner: first position (left to right, including the empty
suffix) where the per-position matcher succeeds. -/
def scanFirst {α : Type} (f : List Char → Option α) : List Char → Option α
  | [] => f []
  | c :: rest =>
    match f (c :: rest) with
    | some a => some a
    | none => scanFirst f rest

/-- Generic scanner with the previous character supplied, for patterns with
a leading word boundary. -/
def scanFirstB {α : Type} (f : Option Char → List Char → Option α) :
    Option Char → List Char → Option α
  | prev, [] => f prev []
  | prev, c :: rest =>
    match f prev (c :: rest) with
    | some a => some a
    | none => scanFirstB f (some c) rest

/-- Word boundary before a word character: start of text or previous
character outside the word class. -/
def boundaryB : Option Char → Bool
  | none => true
  | some p => !isWordChar p

/-- Literal-prefix consumption. -/
def stripPrefixL (p l : List Char) : Option (List Char) :=
  if isPrefL p l then some (l.drop p.length) else none

/-- First alternative of a list that matches, as in regexp alternation. -/
def firstSome {α β : Type} (f : α → Option β) : List α → Option β
  | [] => none
  | a :: r =>
    match f a with
    | some b => some b
    | none => firstSome f r

/-- Type tokens of the group (vec[234]|float|int|bool). -/
def typeToks6 : List (List Char) :=
  ["vec2".data, "vec3".data, "vec4".data, "float".data, "int".data, "bool".data]

/-- Type tokens of the group (vec[234]|float|int|bool|mat[234]). -/
def typeToksMat : List (List Char) :=
  typeToks6 ++ ["mat2".data, "mat3".data, "mat4".data]

/-- Keyword tokens of the group (out|in|inout). -/
def kwToks : List (List Char) :=
  ["out".data, "in".data, "inout".data]

/-- Try the tail of the chain pattern after its comma: one or more spaces, a
captured word, optional spaces, then a semicolon. -/
def chainTry (r : List Char) : Option (List Char) :=
  if (r.takeWhile isSpaceRE).isEmpty then none
  else
    let r1 := r.dropWhile isSpaceRE
    let w := r1.takeWhile isWordChar
    if w.isEmpty then none
    else
      match (r1.dropWhile isWordChar).dropWhile isSpaceRE with
      | ';' :: _ => some w
      | _ => none

/-- First match of the chain pattern (comma, spaces, word, optional spaces,
semicolon) in a line, returning the captured word; main.go line 669. -/
def chainVarFind (line : List Char) : Option (List Char) :=
  scanFirst
    (fun s =>
      match s with
      | ',' :: r => chainTry r
      | _ => none)
    line

/-- Anchored match of the standalone pattern (optional leading spaces, word,
optional spaces, semicolon), returning the captured word; main.go line 673. -/
def standaloneVarFind (line : List Char) : Option (List Char) :=
  let r1 := line.dropWhile isSpaceRE
  let w := r1.takeWhile isWordChar
  if w.isEmpty then none
  else
    match (r1.dropWhile isWordChar).dropWhile isSpaceRE with
    | ';' :: _ => some w
    | _ => none

/-- Try of one type token at the current position: the token, one or more
spaces, at least one word character; shared tail of the two
type-declaration patterns of main.go lines 379 and 691. The Boolean
argument additionally requires optional spaces and an equals sign after
the word (the pattern of line 379). -/
def typeDeclTryTok (needEq : Bool) (t s : List Char) : Option (List Char) :=
  match stripPrefixL t s with
  | none => none
  | some r =>
    if (r.takeWhile isSpaceRE).isEmpty then none
    else
      let r1 := r.dropWhile isSpaceRE
      if (r1.takeWhile isWordChar).isEmpty then none
      else if needEq then
        match ((r1.dropWhile isWordChar).dropWhile isSpaceRE) with
        | '=' :: _ => some t
        | _ => none
      else some t

/-- Per-position try of a word-boundary type token with the alternation
order of the pattern group. -/
def typeDeclTry (needEq : Bool) (s : List Char) : Option (List Char) :=
  firstSome (fun t => typeDeclTryTok needEq t s) typeToks6

/-- First match of the pattern of main.go line 379 (type, spaces, word,
optional spaces, equals), returning the captured type token. -/
def typeDeclEqFind (line : List Char) : Option (List Char) :=
  scanFirstB
    (fun prev s => if boundaryB prev then typeDeclTry true s else none)
    none line

/-- First match of the pattern of main.go line 691 (type, spaces, word),
returning the captured type token. -/
def typeDeclNoEqFind (line : List Char) : Option (List Char) :=
  scanFirstB
    (fun prev s => if boundaryB prev then typeDeclTry false s else none)
    none line

/-- First match of the pattern of main.go line 828 (type, spaces, captured
word, optional spaces, semicolon), returning type token and word. -/
def declVarSemiFind (line : List Char) : Option (List Char × List Char) :=
  scanFirstB
    (fun prev s =>
      if boundaryB prev then
        firstSome
          (fun t =>
            match stripPrefixL t s with
            | none => none
            | some r =>
              if (r.takeWhile isSpaceRE).isEmpty then none
              else
                let r1 := r.dropWhile isSpaceRE
                let w := r1.takeWhile isWordChar
                if w.isEmpty then none
                else
                  match ((r1.dropWhile isWordChar).dropWhile isSpaceRE) with
                  | ';' :: _ => some (t, w)
                  | _ => none)
          typeToks6
      else none)
    none line

/-- Expression tail of the assignment patterns: after the equals sign,
optional spaces then one or more non-semicolon characters then the
semicolon. The captured group is the text from the end of the greedy
space run (backed off by one character when everything before the first
semicolon is spaces) up to the first semicolon. -/
def parseExprSemi (r : List Char) : Option (List Char) :=
  let s := r.takeWhile (fun c => !(c == ';'))
  match r.dropWhile (fun c => !(c == ';')) with
  | ';' :: _ =>
    if s.isEmpty then none
    else
      let t := s.dropWhile isSpaceRE
      if t.isEmpty then some (s.drop (s.length - 1)) else some t
  | _ => none

/-- Anchored match of the assignment patterns of main.go lines 501 and 928
(optional spaces, captured identifier, optional spaces, equals, expression,
semicolon). The Boolean selects the orphaned variant whose identifier must
start with a letter or underscore. -/
def assignFindG (identHead : Bool) (line : List Char) : Option (List Char × List Char) :=
  let r1 := line.dropWhile isSpaceRE
  let w := r1.takeWhile isWordChar
  match w.head? with
  | none => none
  | some c =>
    if identHead && !isIdentStart c then none
    else
      match (r1.dropWhile isWordChar).dropWhile isSpaceRE with
      | '=' :: r3 => (parseExprSemi r3).map (fun e => (w, e))
      | _ => none

/-- Pattern of main.go line 928. -/
def assignFind (line : List Char) : Option (List Char × List Char) :=
  assignFindG false line

/-- Pattern of main.go line 501. -/
def orphanedFind (line : List Char) : Option (List Char × List Char) :=
  assignFindG true line

/-- Anchored match of the pattern of main.go line 508 (optional spaces, type
token with mat variants, one or more spaces). -/
def typeDeclPrefixMatch (line : List Char) : Bool :=
  let r := line.dropWhile isSpaceRE
  typeToksMat.any
    (fun t =>
      match stripPrefixL t r with
      | none => false
      | some r2 => !(r2.takeWhile isSpaceRE).isEmpty)

/-- Existence of a match of the declaration pattern (word boundary, type
token from the given list, spaces, the literal variable, optional spaces,
an equals sign or semicolon); main.go lines 532, 554, 647, 746 and others. -/
def declMatch (toks : List (List Char)) (v : List Char) (code : List Char) : Bool :=
  (scanFirstB
    (fun prev s =>
      if boundaryB prev then
        firstSome
          (fun t =>
            match stripPrefixL t s with
            | none => none
            | some r =>
              if (r.takeWhile isSpaceRE).isEmpty then none
              else
                match stripPrefixL v (r.dropWhile isSpaceRE) with
                | none => none
                | some r2 =>
                  match r2.dropWhile isSpaceRE with
                  | '=' :: _ => some ()
                  | ';' :: _ => some ()
                  | _ => none)
          toks
      else none)
    none code).isSome

/-- Existence of a match of the parameter pattern (word boundary, out or in
or inout, spaces, type token with mat variants, spaces, the literal
variable, optional spaces, a comma or closing parenthesis); main.go lines
524 and 556. -/
def paramMatch (v : List Char) (code : List Char) : Bool :=
  (scanFirstB
    (fun prev s =>
      if boundaryB prev then
        firstSome
          (fun kw =>
            match stripPrefixL kw s with
            | none => none
            | some r =>
              if (r.takeWhile isSpaceRE).isEmpty then none
              else
                firstSome
                  (fun t =>
                    match stripPrefixL t (r.dropWhile isSpaceRE) with
                    | none => none
                    | some r2 =>
                      if (r2.takeWhile isSpaceRE).isEmpty then none
                      else
                        match stripPrefixL v (r2.dropWhile isSpaceRE) with
                        | none => none
                        | some r3 =>
                          match r3.dropWhile isSpaceRE with
                          | ',' :: _ => some ()
                          | ')' :: _ => some ()
                          | _ => none)
                  typeToksMat)
          kwToks
      else none)
    none code).isSome

/-- Identifier-shaped tokens of an expression, as found by the pattern of
main.go line 535: maximal word-character runs whose first character is a
letter or underscore (a run led by a digit has no word boundary inside it
and is skipped whole). The Boolean argument tracks being inside a run. -/
def varRefTokensAux : Bool → List Char → List (List Char)
  | _, [] => []
  | inWord, c :: r =>
    if isWordChar c then
      if inWord then varRefTokensAux true r
      else
        (if isIdentStart c then [c :: r.takeWhile isWordChar] else []) ++
          varRefTokensAux true r
    else varRefTokensAux false r

/-- Token list of the expression of an orphaned assignment. -/
def varRefTokens (expr : List Char) : List (List Char) :=
  varRefTokensAux false expr

/-- Per-position try of the loop pattern of main.go line 1053 (the literal
f o r, optional spaces, opening parenthesis, non-parenthesis characters,
closing parenthesis); returns the match length. -/
def loopTry (s : List Char) : Option Nat :=
  match stripPrefixL "for".data s with
  | none => none
  | some r =>
    let sp := (r.takeWhile isSpaceRE).length
    match r.dropWhile isSpaceRE with
    | '(' :: r2 =>
      let inner := (r2.takeWhile (fun c => !(c == ')'))).length
      match r2.dropWhile (fun c => !(c == ')')) with
      | ')' :: _ => some (3 + sp + 1 + inner + 1)
      | _ => none
    | _ => none

/-- All leftmost non-overlapping matches of the loop pattern with their
start and end offsets, as returned by FindAllStringIndex. The fuel is the
text length; every step consumes at least one character, so it never runs
out before the scan completes. -/
def loopFindAllAux : Nat → Nat → List Char → List (Nat × Nat)
  | 0, _, _ => []
  | _ + 1, _, [] => []
  | fuel + 1, pos, c :: rest =>
    match loopTry (c :: rest) with
    | some mlen => (pos, pos + mlen) :: loopFindAllAux fuel (pos + mlen) ((c :: rest).drop mlen)
    | none => loopFindAllAux fuel (pos + 1) rest

/-- Embedding of FindAllStringIndex for the loop pattern. -/
def loopFindAll (code : List Char) : List (Nat × Nat) :=
  loopFindAllAux code.length 0 code

/-! ## Function-scope locator (main.go findFunctionScope, lines 623 to 642) -/

/-- Heuristic function-signature test of main.go lines 630 to 632, applied
to the trimmed line. -/
def funcLineCheck (l : List Char) : Bool :=
  containsSub l "void ".data ||
  (containsSub l "float ".data && containsSub l "(".data) ||
  (containsSub l "vec".data && containsSub l "(".data)

/-- Embedding of main.go findFunctionScope: scan backwards from the given
line for a signature line; none models the -1 result. The second component
is true when the signature contains the substring mainImage. Line reads
stay in range at every call site; the empty default can never be hit
there. -/
def findFunctionScope (lines : List (List Char)) : Nat → Option Nat × Bool
  | 0 =>
    let l := trimSpace (lines.getD 0 [])
    if funcLineCheck l then (some 0, containsSub l "mainImage".data) else (none, false)
  | i + 1 =>
    let l := trimSpace (lines.getD (i + 1) [])
    if funcLineCheck l then (some (i + 1), containsSub l "mainImage".data)
    else findFunctionScope lines i

/-- First line whose trimmed text contains the substring mainImage, the
search of main.go lines 736 to 741; the auxiliary argument is the index of
the head of the remaining list. -/
def findMainImageAnyAux (i : Nat) : List (List Char) → Option Nat
  | [] => none
  | l :: rest =>
    if containsSub (trimSpace l) "mainImage".data then some i
    else findMainImageAnyAux (i + 1) rest

/-- Search for the first line containing mainImage. -/
def findMainImageAny (lines : List (List Char)) : Option Nat :=
  findMainImageAnyAux 0 lines

/-- First line before index i satisfying the signature heuristic, the
search of main.go lines 780 to 789. -/
def firstFuncBefore (lines : List (List Char)) (i : Nat) : Option Nat :=
  findFirstFuncAux 0 i lines
where
  findFirstFuncAux (j stop : Nat) : List (List Char) → Option Nat
    | [] => none
    | l :: rest =>
      if j < stop then
        if funcLineCheck (trimSpace l) then some j
        else findFirstFuncAux (j + 1) stop rest
      else none

/-! ## Variable-type inferencer (main.go determineVariableType, lines 375 to 488) -/

/-- Zero-value switch of main.go over the six type tokens; none models a
switch that matches no case. -/
def typeSwitch6 (t : List Char) : Option (List Char) :=
  if t = "vec2".data then some "vec2(0.0)".data
  else if t = "vec3".data then some "vec3(0.0)".data
  else if t = "vec4".data then some "vec4(0.0)".data
  else if t = "float".data then some "0.0".data
  else if t = "int".data then some "0".data
  else if t = "bool".data then some "false".data
  else none

/-- Result of the backward chain walk of determineVariableType: an
out-of-range line read (a Go index panic), a found zero value, or a normal
exit into the usage heuristics. -/
inductive WalkRes where
  | oob : WalkRes
  | found : List Char → WalkRes
  | stop : WalkRes
deriving DecidableEq, Repr

/-- Decision of one chain-walk iteration on a trimmed previous line, given
the continuation of the loop: an empty line is skipped, a line ending in a
comma continues the chain, and a line without a trailing comma either
yields the declared type or breaks out of the chain (main.go lines 382 to
431). -/
def chainWalkLine (prevLine : List Char) (next : WalkRes) : WalkRes :=
  if prevLine.isEmpty then next
  else if isSuffL [','] prevLine then
    match typeDeclEqFind prevLine with
    | some tok =>
      match typeSwitch6 tok with
      | some z => .found z
      | none => next
    | none => next
  else
    match typeDeclEqFind prevLine with
    | some tok =>
      match typeSwitch6 tok with
      | some z => .found z
      | none => .stop
    | none => .stop

/-- Backward walk over the declaration chain, main.go lines 381 to 432. The
second argument is the current line index j, the third the number of loop
iterations still allowed by the conditions j greater or equal zero and j
greater or equal lineIndex minus twenty. -/
def chainWalk (lines : List (List Char)) : Nat → Nat → WalkRes
  | _, 0 => .stop
  | j, steps + 1 =>
    if j < lines.length then
      chainWalkLine (trimSpace (lines.getD j []))
        (if j = 0 then .stop else chainWalk lines (j - 1) steps)
    else .oob

/-- Existence of a swizzle access (the literal variable, a dot, then at
least two characters from x y z w), main.go line 448; a two-character
suffix suffices for existence under the greedy two-to-four repetition. -/
def swizzleExists (v code : List Char) : Bool :=
  (scanFirst
    (fun s =>
      match stripPrefixL v s with
      | none => none
      | some r =>
        match r with
        | '.' :: a :: b :: _ =>
          if (a == 'x' || a == 'y' || a == 'z' || a == 'w') &&
             (b == 'x' || b == 'y' || b == 'z' || b == 'w') then some () else none
        | _ => none)
    code).isSome

/-- Usage-pattern heuristics of determineVariableType, main.go lines 434 to
487, reached when the chain walk exits normally. Conditions that the Go
code states twice are kept twice. -/
def dvtUsage (v code : List Char) : List Char :=
  let varNameDot := v ++ ['.']
  if containsSub code (varNameDot ++ ['w']) || containsSub code (v ++ ".w".data) then
    "vec4(0.0)".data
  else if containsSub code (varNameDot ++ ['z']) || containsSub code (v ++ ".z".data) then
    "vec4(0.0)".data
  else if swizzleExists v code then
    (if containsSub code (v ++ " +=".data) || containsSub code (v ++ " =".data) then
      "vec2(0.0)".data
    else "vec2(0.0)".data)
  else if containsSub code (varNameDot ++ ['x']) || containsSub code (varNameDot ++ ['y']) ||
      containsSub code (v ++ ".x".data) || containsSub code (v ++ ".y".data) then
    (if containsSub code (v ++ " +=".data) || containsSub code (v ++ " =".data) then
      "vec2(0.0)".data
    else "vec2(0.0)".data)
  else if containsSub code (v ++ " +=".data) || containsSub code (v ++ " =".data) ||
      containsSub code (v ++ " -=".data) || containsSub code (v ++ " *=".data) ||
      containsSub code (v ++ " /=".data) then
    "vec2(0.0)".data
  else if containsSub code (v ++ " ".data) || containsSub code (v ++ "(".data) ||
      containsSub code (v ++ ")".data) || containsSub code ("(".data ++ v) then
    "vec2(0.0)".data
  else "vec2(0.0)".data

/-- Embedding of main.go determineVariableType. The none result models the
Go index panic on lines 382 when the requested line index exceeds the line
array (the backward loop reads lines at lineIndex minus one). -/
def determineVariableType (v code : List Char) (lines : List (List Char))
    (lineIndex : Nat) : Option (List Char) :=
  let w := if lineIndex = 0 then WalkRes.stop else chainWalk lines (lineIndex - 1) (min lineIndex 20)
  match w with
  | .oob => none
  | .found z => some z
  | .stop => some (dvtUsage v code)

/-! ## Orphaned-assignment remover (main.go removeOrphanedAssignments, lines 494 to 574) -/

/-- Reserved control-flow words skipped by several passes. -/
def reserved4 : List (List Char) :=
  ["if".data, "for".data, "while".data, "return".data]

/-- Allow-list test of main.go lines 542 to 549 for a referenced token,
including the token equal to the assigned variable itself. -/
def isAllowedRef (ref v : List Char) : Bool :=
  (["vec2", "vec3", "vec4", "sin", "cos", "abs", "fract", "clamp", "pow", "mix",
    "smoothstep", "exp2", "normalize", "dot", "length", "floor", "step", "iTime",
    "iResolution", "gl_FragCoord", "x", "y", "z", "w", "r", "g", "b", "a", "xy",
    "zx", "rgb", "xyyx", "time", "spd", "mm2", "tri2", "tri", "m2", "bp",
    "p"].map String.data).any (fun t => t == ref) || ref == v

/-- Keep decision for one line of removeOrphanedAssignments; the line list
is the full original array (the Go code joins the unmodified prefix). -/
def roaKeep (lines : List (List Char)) (i : Nat) (line : List Char) : Bool :=
  match orphanedFind line with
  | none => true
  | some (varName, expr) =>
    if typeDeclPrefixMatch line then true
    else if reserved4.any (fun k => k == varName) then true
    else
      let beforeCode := joinNl (lines.take i)
      if paramMatch varName beforeCode then true
      else if declMatch typeToksMat varName beforeCode then true
      else
        !(varRefTokens expr).any
          (fun ref =>
            !isAllowedRef ref varName &&
            !declMatch typeToksMat ref beforeCode &&
            !paramMatch ref beforeCode)

/-- Filter loop of removeOrphanedAssignments. -/
def roaAux (all : List (List Char)) (i : Nat) : List (List Char) → List (List Char)
  | [] => []
  | l :: rest =>
    (if roaKeep all i l then [l] else []) ++ roaAux all (i + 1) rest

/-- Embedding of main.go removeOrphanedAssignments on character lists. -/
def removeOrphanedAssignmentsL (code : List Char) : List Char :=
  let lines := splitNl code
  joinNl (roaAux lines 0 lines)

/-- Embedding of main.go removeOrphanedAssignments. -/
def removeOrphanedAssignments (code : String) : String :=
  ⟨removeOrphanedAssignmentsL code.data⟩

/-! ## Duplicate-output-declaration fixer (main.go fixMainImageFragColor, lines 578 to 621) -/

/-- Search of main.go lines 582 to 588: first line whose trimmed text
contains the substring void mainImage. -/
def findMainImageStartAux (i : Nat) : List (List Char) → Option Nat
  | [] => none
  | l :: rest =>
    if containsSub (trimSpace l) "void mainImage".data then some i
    else findMainImageStartAux (i + 1) rest

/-- Start line of the mainImage function for the fragColor fixer. -/
def findMainImageStart (lines : List (List Char)) : Option Nat :=
  findMainImageStartAux 0 lines

/-- Brace-counting loop of main.go lines 595 to 604; the count is an
integer as in Go and the index argument is the absolute index of the head
of the remaining list. At list exhaustion the index equals the array
length, the Go default. -/
def fmEndGo (start : Nat) : Nat → Int → List (List Char) → Nat
  | i, _, [] => i
  | i, bc, l :: rest =>
    let bc2 := bc + (countChar l '\x7b' : Int) - (countChar l '\x7d' : Int)
    if bc2 = 0 ∧ i > start then i + 1 else fmEndGo start (i + 1) bc2 rest

/-- Rewrite of one line inside the mainImage span, main.go lines 607 to
618: a line containing a typed fragColor declaration is replaced by spaces
matching its indentation width followed by its trimmed text from the first
occurrence of fragColor. -/
def fmFixLine (l : List Char) : List Char :=
  let trimmed := trimSpace l
  if containsSub trimmed "vec4 fragColor =".data || containsSub trimmed "vec4 fragColor=".data then
    match indexOfSub trimmed "fragColor".data with
    | some idx =>
      List.replicate (l.length - (trimLeftSpTab l).length) ' ' ++ trimmed.drop idx
    | none => l
  else l

/-- Apply the fragColor rewrite to the lines whose absolute index lies in
the half-open mainImage span. -/
def fmRewrite (st en : Nat) (i : Nat) : List (List Char) → List (List Char)
  | [] => []
  | l :: rest =>
    (if st ≤ i ∧ i < en then fmFixLine l else l) :: fmRewrite st en (i + 1) rest

/-- Line-level embedding of main.go fixMainImageFragColor. -/
def fixMainImageFragColorLines (lines : List (List Char)) : List (List Char) :=
  match findMainImageStart lines with
  | none => lines
  | some st =>
    let en := fmEndGo st st 0 (lines.drop st)
    fmRewrite st en 0 lines

/-- Embedding of main.go fixMainImageFragColor. -/
def fixMainImageFragColorL (code : List Char) : List Char :=
  match findMainImageStart (splitNl code) with
  | none => code
  | some _ => joinNl (fixMainImageFragColorLines (splitNl code))

/-- String wrapper for fixMainImageFragColor. -/
def fixMainImageFragColor (code : String) : String :=
  ⟨fixMainImageFragColorL code.data⟩

/-! ## Repair-state map

Go stores the repair state in a map from variable name to default value.
Map iteration order in Go is unspecified; the embedding uses an
association list in discovery order, which fixes one admissible order. -/

/-- Association list membership test. -/
def assocHas (m : List (List Char × List Char)) (k : List Char) : Bool :=
  m.any (fun kv => kv.1 == k)

/-- Association list update, replacing an existing binding. -/
def assocSet (m : List (List Char × List Char)) (k v : List Char) :
    List (List Char × List Char) :=
  match m with
  | [] => [(k, v)]
  | (k0, v0) :: r => if k0 = k then (k, v) :: r else (k0, v0) :: assocSet r k v

/-! ## Uninitialized-variable fixer and pipeline (main.go fixShaderCode, lines 652 to 1098) -/

/-- Usage test of main.go lines 805 to 809 and 879 to 887: nine substring
probes of the variable adjacent to an operator or parenthesis. -/
def usedCheck9 (text v : List Char) : Bool :=
  containsSub text (v ++ " ".data) || containsSub text (v ++ ".".data) ||
  containsSub text (v ++ "+".data) || containsSub text (v ++ "-".data) ||
  containsSub text (v ++ "*".data) || containsSub text (v ++ "/".data) ||
  containsSub text (v ++ "=".data) || containsSub text ("(".data ++ v) ||
  containsSub text (v ++ ")".data)

/-- Usage test of main.go lines 1019 to 1022: seven substring probes. -/
def usedCheck7 (text v : List Char) : Bool :=
  containsSub text (v ++ " ".data) || containsSub text (v ++ ".".data) ||
  containsSub text (v ++ "+".data) || containsSub text (v ++ "-".data) ||
  containsSub text (v ++ "*".data) || containsSub text (v ++ "/".data) ||
  containsSub text (v ++ "=".data)

/-- Chain-form branch of the first fixShaderCode pass, main.go lines 683 to
717, applied when the chain pattern matched with captured variable v. The
first argument is the comment-stripped code captured before the loop. -/
def chainBranch (code0 : List Char) (st : List (List Char) × List (List Char × List Char))
    (i : Nat) (line v : List Char) : List (List Char) × List (List Char × List Char) :=
  if containsSub line (v ++ " =".data) then st
  else
    let varType0 : List Char :=
      match typeDeclNoEqFind line with
      | some tok => (typeSwitch6 tok).getD []
      | none => []
    let varType :=
      if varType0.isEmpty then (determineVariableType v code0 st.1 i).getD "vec2(0.0)".data
      else varType0
    let newLine :=
      replaceFirst line (", ".data ++ v ++ ";".data)
        (", ".data ++ v ++ " = ".data ++ varType ++ ";".data)
    (st.1.set i newLine, assocSet st.2 v varType)

/-- Standalone-form branch of the first fixShaderCode pass, main.go lines
720 to 823. -/
def standaloneBranch (code0 : List Char)
    (st : List (List Char) × List (List Char × List Char))
    (i : Nat) (line v : List Char) : List (List Char) × List (List Char × List Char) :=
  let lines := st.1
  if reserved4.any (fun k => k == v) || containsSub line (v ++ " =".data) then st
  else
    let fs := findFunctionScope lines i
    let skipScope :=
      match fs with
      | (some _, false) =>
        match findMainImageAny lines with
        | some mi => declMatch typeToks6 v (joinNl (lines.drop mi))
        | none => false
      | _ => false
    if skipScope then st
    else
      let declElse1 :=
        match findMainImageAny lines with
        | some mi => declMatch typeToks6 v (joinNl (lines.drop mi))
        | none => false
      let declElse :=
        if declElse1 then true
        else
          match firstFuncBefore lines i with
          | some ff => declMatch typeToks6 v (joinNl (lines.take ff))
          | none => false
      if declElse then st
      else if usedCheck9 code0 v then
        let varType := (determineVariableType v code0 lines i).getD "vec2(0.0)".data
        let indent := line.takeWhile (fun c => c == ' ' || c == '\t')
        (lines.set i (indent ++ v ++ " = ".data ++ varType ++ ";".data),
         assocSet st.2 v varType)
      else st

/-- Explicit-declaration branch of the first fixShaderCode pass, main.go
lines 828 to 912, applied to the trimmed line with captured type token and
variable. -/
def declBranch (st : List (List Char) × List (List Char × List Char))
    (i : Nat) (trimmed : List Char) (tok v : List Char) :
    List (List Char) × List (List Char × List Char) :=
  let lines := st.1
  if containsSub trimmed (v ++ " =".data) then st
  else
    let fs := findFunctionScope lines i
    let skipScope :=
      match fs with
      | (some fstart, false) =>
        let d1 :=
          match findMainImageAny lines with
          | some mi => declMatch typeToks6 v (joinNl (lines.drop mi))
          | none => false
        if d1 then true else declMatch typeToks6 v (joinNl (lines.take fstart))
      | _ => false
    if skipScope then st
    else
      let remaining := joinNl (lines.drop (i + 1))
      if usedCheck9 remaining v then
        let dv := (typeSwitch6 tok).getD "0.0".data
        (lines.set i (replaceFirst trimmed (v ++ ";".data) (v ++ " = ".data ++ dv ++ ";".data)),
         assocSet st.2 v dv)
      else st

/-- One iteration of the first fixShaderCode pass over line i. -/
def pass1Step (code0 : List Char) (st : List (List Char) × List (List Char × List Char))
    (i : Nat) : List (List Char) × List (List Char × List Char) :=
  let line := st.1.getD i []
  let trimmed := trimSpace line
  if trimmed.isEmpty then st
  else
    match chainVarFind line with
    | some v => chainBranch code0 st i line v
    | none =>
      match standaloneVarFind line with
      | some v => standaloneBranch code0 st i line v
      | none =>
        match declVarSemiFind trimmed with
        | some (tok, v) => declBranch st i trimmed tok v
        | none => st

/-- One iteration of the cleanup pass of main.go lines 920 to 987 over
line i: an assignment to a variable declared nowhere before it is deleted
when the variable is declared inside mainImage, and otherwise promoted to
a typed declaration with the type read off the assigned expression. -/
def cleanupStep (lines : List (List Char)) (i : Nat) : List (List Char) :=
  let line := lines.getD i []
  let trimmed := trimSpace line
  if trimmed.isEmpty then lines
  else
    match assignFind line with
    | none => lines
    | some (v, assignValue) =>
      if reserved4.any (fun k => k == v) then lines
      else
        let beforeCode := joinNl (lines.take i)
        if declMatch typeToks6 v beforeCode then lines
        else
          match findFunctionScope lines i with
          | (some _, false) =>
            let delCase :=
              match findMainImageAny lines with
              | some mi => declMatch typeToks6 v (joinNl (lines.drop mi))
              | none => false
            if delCase then lines.set i []
            else
              let varType :=
                if containsSub assignValue "vec2(".data then "vec2".data
                else if containsSub assignValue "vec3(".data then "vec3".data
                else if containsSub assignValue "vec4(".data then "vec4".data
                else if containsSub assignValue ".".data && !containsSub assignValue "(".data then
                  "float".data
                else "float".data
              let indent := line.takeWhile (fun c => c == ' ' || c == '\t')
              lines.set i (indent ++ varType ++ " ".data ++ v ++ " = ".data ++ assignValue ++ ";".data)
          | _ => lines

/-- One iteration of the second standalone sweep of main.go lines 1002 to
1038 over line i; code1 is the text joined after the cleanup pass. -/
def pass2Step (code1 : List Char) (st : List (List Char) × List (List Char × List Char))
    (i : Nat) : List (List Char) × List (List Char × List Char) :=
  let lines := st.1
  let line := lines.getD i []
  let trimmed := trimSpace line
  if trimmed.isEmpty then st
  else
    match standaloneVarFind line with
    | none => st
    | some v =>
      if containsSub line (v ++ " =".data) || reserved4.any (fun k => k == v) then st
      else if usedCheck7 code1 v then
        if assocHas st.2 v then st
        else if !containsSub code1 (v ++ " =".data) && !containsSub code1 (v ++ "=".data) then
          let varType := (determineVariableType v code1 lines i).getD "vec2(0.0)".data
          let indent := line.takeWhile (fun c => c == ' ' || c == '\t')
          (lines.set i (indent ++ v ++ " = ".data ++ varType ++ ";".data),
           assocSet st.2 v varType)
        else st
      else st

/-- Reference test of the loop-preinitialization pass, main.go lines 1077
to 1084: eight substring probes over the text from the loop body on. -/
def refCheckLoop (body v : List Char) : Bool :=
  containsSub body (v ++ " ".data) || containsSub body (v ++ ".".data) ||
  containsSub body (v ++ "+".data) || containsSub body (v ++ "-".data) ||
  containsSub body (v ++ "*".data) || containsSub body (v ++ "/".data) ||
  containsSub body (v ++ "=".data) || containsSub body ("(".data ++ v)

/-- Assignment test of main.go lines 1086 to 1087 over the text before the
loop header. -/
def assignedBefore (before v : List Char) : Bool :=
  containsSub before (v ++ " =".data) || containsSub before (v ++ "=".data)

/-- Insertion of one recorded variable before one loop, main.go lines 1075
to 1092; the reference and assignment tests run on the body and prefix
texts captured when the loop match was taken up. -/
def loopInsertVar (s : Nat) (before body : List Char) (cd : List Char)
    (kv : List Char × List Char) : List Char :=
  if refCheckLoop body kv.1 && !assignedBefore before kv.1 then
    cd.take s ++ "    ".data ++ kv.1 ++ " = ".data ++ kv.2 ++ ";".data ++ ['\n'] ++ cd.drop s
  else cd

/-- Processing of one loop match, main.go lines 1057 to 1093. -/
def processLoopMatch (uninit : List (List Char × List Char)) (cd : List Char)
    (m : Nat × Nat) : List Char :=
  let before := cd.take m.1
  let body0 := cd.drop m.2
  match indexOfSub body0 ['\x7b'] with
  | none => cd
  | some bi =>
    let body := cd.drop (m.2 + bi)
    uninit.foldl (loopInsertVar m.1 before body) cd

/-- Loop-preinitialization pass, main.go lines 1049 to 1095: matches are
found once and processed in reverse textual order. -/
def loopPreInit (uninit : List (List Char × List Char)) (cd : List Char) : List Char :=
  if containsSub cd "for(".data then
    (loopFindAll cd).reverse.foldl (processLoopMatch uninit) cd
  else cd

/-- Pipeline of main.go fixShaderCode up to, but not including, the
loop-preinitialization pass; returns the text and the repair-state map. -/
def fixShaderCodePreLoop (code : List Char) : List Char × List (List Char × List Char) :=
  let code0 := removeCommentsLines false (splitNl code)
  let lines0 := splitNl code0
  let p1 := (List.range lines0.length).foldl (pass1Step code0) (lines0, [])
  let lines1 := splitNl (joinNl p1.1)
  let lines2 := (List.range lines1.length).foldl cleanupStep lines1
  let lines3 := splitNl (joinNl lines2)
  let filtered := lines3.filter (fun l => !(trimSpace l).isEmpty)
  let code1 := joinNl filtered
  let lines4 := splitNl code1
  let p2 := (List.range lines4.length).foldl (pass2Step code1) (lines4, p1.2)
  let code2 := joinNl p2.1
  let code3 := removeOrphanedAssignmentsL code2
  (fixMainImageFragColorL code3, p2.2)

/-- Embedding of main.go fixShaderCode on character lists. -/
def fixShaderCodeL (code : List Char) : List Char :=
  let p := fixShaderCodePreLoop code
  loopPreInit p.2 p.1

/-- Embedding of main.go fixShaderCode. -/
def fixShaderCode (code : String) : String :=
  ⟨fixShaderCodeL code.data⟩

/-! ## Container model (main.go lines 1711 to 1750) -/

/-- Channel binding of one pass, the Go ShaderInput struct. -/
structure ShaderInput where
  id : String
  channel : Int
  src : String
  type : String
deriving DecidableEq, Repr

/-- One shader pass, the Go ShaderPass struct. -/
structure ShaderPass where
  index : Int
  code : String
  inputs : List ShaderInput
  type : String
  name : String
deriving DecidableEq, Repr

/-- Container metadata, the Go ShaderMetadata struct. -/
structure ShaderMetadata where
  url : String
  shaderID : String
  title : String
  description : String
  numPasses : Int
deriving DecidableEq, Repr

/-- The shader container, the Go ShaderData struct. The performance and
texture fields are opaque pass-through data never read by the core and are
omitted from the model. -/
structure ShaderData where
  metadata : Option ShaderMetadata
  passes : List ShaderPass
  screenshots : List String
deriving DecidableEq, Repr

/-- Embedding of main.go loadEmbeddedShader (lines 299 to 323). The JSON
decoder is the standard library encoding/json, external to this
repository; it is abstracted as a function from text to an optional
container, with none modelling a decode error. The error component of
preprocessJSON is checked as the Go code does. -/
def loadEmbeddedShader (unmarshal : String → Option ShaderData)
    (shaderJSONData : String) : Except String ShaderData :=
  if shaderJSONData.data.isEmpty then .error "embedded shader data is empty"
  else
    match (preprocessJSON shaderJSONData).2 with
    | some e => .error ("error preprocessing JSON: " ++ e)
    | none =>
      match unmarshal (preprocessJSON shaderJSONData).1 with
      | none => .error "error parsing JSON"
      | some sd =>
        if sd.passes.isEmpty then .error "shader file contains no passes"
        else .ok sd

/-- Pass-selection step of main.go getMainShaderCode (lines 1102 to 1115):
the first pass whose type is image or whose name is Image, and otherwise
the first pass of the sequence. The none result models the Go index panic
on an empty pass list, which loadEmbeddedShader rules out. -/
def getMainShaderPass (shaderData : ShaderData) : Option ShaderPass :=
  match shaderData.passes.find? (fun p => p.type == "image" || p.name == "Image") with
  | some p => some p
  | none => shaderData.passes.head?

/-! ## Helper lemmas -/

/-- Zero-value initializer strings producible by the type inferencer. -/
def sixVals : List (List Char) :=
  ["vec2(0.0)".data, "vec3(0.0)".data, "vec4(0.0)".data, "0.0".data, "0".data, "false".data]

theorem typeSwitch6_mem {t z : List Char} (h : typeSwitch6 t = some z) : z ∈ sixVals := by
  unfold typeSwitch6 at h
  split_ifs at h <;> simp_all [sixVals]

theorem dvtUsage_mem (v code : List Char) : dvtUsage v code ∈ sixVals := by
  unfold dvtUsage
  dsimp only
  split_ifs <;> simp [sixVals]

/-- Invariant of walk results reachable from an in-range start index. -/
def walkOK : WalkRes → Prop
  | .oob => False
  | .found z => z ∈ sixVals
  | .stop => True

theorem chainWalkLine_ok (prevLine : List Char) (next : WalkRes)
    (hnext : walkOK next) : walkOK (chainWalkLine prevLine next) := by
  unfold chainWalkLine
  split_ifs
  · exact hnext
  · rcases he : typeDeclEqFind prevLine with _ | tok <;> simp only [he]
    · exact hnext
    · rcases hz : typeSwitch6 tok with _ | z <;> simp only [hz]
      · exact hnext
      · simpa [walkOK] using typeSwitch6_mem hz
  · rcases he : typeDeclEqFind prevLine with _ | tok <;> simp only [he]
    · simp [walkOK]
    · rcases hz : typeSwitch6 tok with _ | z <;> simp only [hz]
      · simp [walkOK]
      · simpa [walkOK] using typeSwitch6_mem hz

theorem chainWalk_ok (lines : List (List Char)) :
    ∀ (steps j : Nat), j < lines.length → walkOK (chainWalk lines j steps) := by
  intro steps
  induction steps with
  | zero => intro j _; simp [chainWalk, walkOK]
  | succ n ih =>
    intro j hj
    have hnext : walkOK (if j = 0 then WalkRes.stop else chainWalk lines (j - 1) n) := by
      by_cases h0 : j = 0
      · simp [h0, walkOK]
      · simp only [h0, if_false]
        exact ih (j - 1) (lt_of_le_of_lt (Nat.sub_le j 1) hj)
    rw [chainWalk]
    rw [if_pos hj]
    exact chainWalkLine_ok _ _ hnext

/-! ## C10: totality and value range of the variable-type inferencer -/

/-- C10 counterexample: with an empty line array and line index one, the
backward chain walk reads line zero of an empty array; in Go this is an
index-out-of-range panic (modelled as none), not a zero-value result, so
the inferencer is not total on out-of-range indices. -/
theorem determineVariableType_oob_cex :
    determineVariableType ['x'] [] [] 1 = none := by decide

/-- C10 (amended): for every identifier, code text and line array, and
every line index not exceeding the line-array length, the variable-type
inferencer returns a value, and that value is one of the six zero-value
initializer strings. -/
theorem determineVariableType_total (v code : List Char) (lines : List (List Char))
    (lineIndex : Nat) (h : lineIndex ≤ lines.length) :
    ∃ r, determineVariableType v code lines lineIndex = some r ∧ r ∈ sixVals := by
  unfold determineVariableType
  by_cases h0 : lineIndex = 0
  · exact ⟨dvtUsage v code, by simp [h0], dvtUsage_mem v code⟩
  · have hlt : lineIndex - 1 < lines.length := by omega
    have hw := chainWalk_ok lines (min lineIndex 20) (lineIndex - 1) hlt
    rcases hres : chainWalk lines (lineIndex - 1) (min lineIndex 20) with _ | z | _
    · rw [hres] at hw; exact absurd hw (by simp [walkOK])
    · rw [hres] at hw
      exact ⟨z, by simp [h0, hres], hw⟩
    · exact ⟨dvtUsage v code, by simp [h0, hres], dvtUsage_mem v code⟩

/-- C10 witness: the amended theorem applied at a concrete in-range input. -/
theorem determineVariableType_total_witness :
    (0 : Nat) ≤ ([] : List (List Char)).length ∧
      ∃ r, determineVariableType ['x'] [] [] 0 = some r ∧ r ∈ sixVals :=
  ⟨by decide, determineVariableType_total ['x'] [] [] 0 (by decide)⟩

/-! ## C5: end-to-end scenario A -/

/-- C5: the repair pipeline applied to the single line of scenario A. The
documentation of removeOrphanedAssignments (main.go lines 490 to 493 and
1042 to 1043) names this very line, with bpos undeclared, as its example
of a removed orphaned assignment, but the anchored assignment pattern of
line 501 cannot match a line that starts with a type token followed by an
identifier, so the line survives every pass unchanged and the output is
not empty. -/
theorem fixShaderCode_scenarioA :
    fixShaderCode "vec2 p = bpos.zx;\n" = "vec2 p = bpos.zx;" := by decide

/-! ## C1: loader failure conditions -/

/-- C1: with any JSON decoder that rejects the empty text (as encoding/json
does), the loader fails exactly when the preprocessed bytes do not decode
or the decoded container has an empty pass list. -/
theorem loadEmbeddedShader_fails_iff (unmarshal : String → Option ShaderData)
    (hum : unmarshal "" = none) (data : String) :
    (∀ sd, loadEmbeddedShader unmarshal data ≠ .ok sd) ↔
      (unmarshal (preprocessJSON data).1 = none ∨
        ∃ sd, unmarshal (preprocessJSON data).1 = some sd ∧ sd.passes = []) := by
  by_cases hd : data.data.isEmpty
  · have hdata : data = "" := by
      cases data with
      | mk l =>
        cases l with
        | nil => rfl
        | cons c t => simp at hd
    subst hdata
    have hpre : (preprocessJSON "").1 = "" := rfl
    constructor
    · intro _
      exact Or.inl (by rw [hpre, hum])
    · intro _ sd h
      rw [loadEmbeddedShader] at h
      simp at h
  · have heq : loadEmbeddedShader unmarshal data =
        (match unmarshal (preprocessJSON data).1 with
          | none => Except.error "error parsing JSON"
          | some sd =>
            if sd.passes.isEmpty then Except.error "shader file contains no passes"
            else Except.ok sd) := by
      rw [loadEmbeddedShader, if_neg hd]
      rfl
    rcases hu : unmarshal (preprocessJSON data).1 with _ | sd
    · constructor
      · intro _
        exact Or.inl rfl
      · intro _ sd h
        rw [heq, hu] at h
        exact Except.noConfusion h
    · by_cases hp : sd.passes.isEmpty
      · have hpl : sd.passes = [] := by simpa using hp
        constructor
        · intro _
          exact Or.inr ⟨sd, rfl, hpl⟩
        · intro _ sd2 h
          rw [heq, hu] at h
          simp [hp] at h
      · have hpl : ¬sd.passes = [] := by simpa using hp
        constructor
        · intro hfail
          refine (False.elim (hfail sd ?_))
          rw [heq, hu]
          simp [hp]
        · rintro (h1 | ⟨sd2, hsd2, hp2⟩) sd3 hok
          · exact Option.noConfusion h1
          · have h2 : sd = sd2 := by injection hsd2
            exact hpl (by rw [h2]; exact hp2)

instance {ε α : Type} [DecidableEq ε] [DecidableEq α] : DecidableEq (Except ε α)
  | .error a, .error b =>
    if h : a = b then isTrue (by rw [h]) else isFalse (by simp [h])
  | .error _, .ok _ => isFalse (by simp)
  | .ok _, .error _ => isFalse (by simp)
  | .ok a, .ok b =>
    if h : a = b then isTrue (by rw [h]) else isFalse (by simp [h])

/-- Decoder used by the C1 witness: it accepts exactly the scenario D
container text, a container with an empty pass list. -/
def unmarshalEmptyPasses : String → Option ShaderData := fun s =>
  if s = "\x7b\"passes\": []\x7d" then some ⟨none, [], []⟩ else none

/-- C1 witness: the theorem applied to the scenario D container, together
with the concrete evaluation showing the empty-pass-list error. -/
theorem loadEmbeddedShader_fails_iff_witness :
    unmarshalEmptyPasses "" = none ∧
      ((∀ sd, loadEmbeddedShader unmarshalEmptyPasses "\x7b\"passes\": []\x7d" ≠ .ok sd) ↔
        (unmarshalEmptyPasses (preprocessJSON "\x7b\"passes\": []\x7d").1 = none ∨
          ∃ sd, unmarshalEmptyPasses (preprocessJSON "\x7b\"passes\": []\x7d").1 = some sd ∧
            sd.passes = [])) ∧
      loadEmbeddedShader unmarshalEmptyPasses "\x7b\"passes\": []\x7d" =
        .error "shader file contains no passes" :=
  ⟨by decide, loadEmbeddedShader_fails_iff unmarshalEmptyPasses (by decide) _, by decide⟩

/-! ## C2: pass selection -/

/-- Characterization of the first match of find? by its index. -/
theorem find?_first {α : Type} (P : α → Bool) :
    ∀ (l : List α) (a : α), l.find? P = some a →
      ∃ i, ∃ hi : i < l.length, a = l.get ⟨i, hi⟩ ∧ P a = true ∧
        ∀ j (hj : j < l.length), j < i → P (l.get ⟨j, hj⟩) = false := by
  intro l
  induction l with
  | nil => intro a h; simp [List.find?] at h
  | cons x xs ih =>
    intro a h
    rw [List.find?] at h
    by_cases hx : P x
    · rw [hx] at h
      injection h with h2
      refine ⟨0, by simp, by simp [h2], by rw [← h2]; exact hx, ?_⟩
      intro j hj hj0
      omega
    · rw [Bool.not_eq_true] at hx
      rw [hx] at h
      obtain ⟨i, hi, ha, hPa, hfirst⟩ := ih a h
      refine ⟨i + 1, by simpa using hi, by simpa using ha, hPa, ?_⟩
      intro j hj hji
      cases j with
      | zero => simpa using hx
      | succ j2 =>
        have hj2 : j2 < xs.length := by simpa using hj
        have := hfirst j2 hj2 (by omega)
        simpa using this

/-- The pass-selection predicate of main.go line 1106. -/
def isImagePass (p : ShaderPass) : Bool :=
  p.type == "image" || p.name == "Image"

/-- Container of scenario C: two passes of which only the second is an
image pass. -/
def scenarioCData : ShaderData :=
  { metadata := none
    passes :=
      [ { index := 0, code := "first", inputs := [], type := "buffer", name := "Buf" },
        { index := 1, code := "second", inputs := [], type := "image", name := "Img" } ]
    screenshots := [] }

/-- C2: for every container with at least one pass, pass selection returns
a pass; that pass is either the first pass in sequence order satisfying
the image predicate (all earlier passes failing it), or, when no pass
satisfies it, the head of the sequence. The second conjunct is scenario C:
with two passes of which only the second has type image, the second is
selected. -/
theorem getMainShaderPass_spec :
    (∀ sd : ShaderData, sd.passes ≠ [] →
      ∃ p, getMainShaderPass sd = some p ∧
        ((∃ i, ∃ hi : i < sd.passes.length, p = sd.passes.get ⟨i, hi⟩ ∧
            isImagePass p = true ∧
            ∀ j (hj : j < sd.passes.length), j < i →
              isImagePass (sd.passes.get ⟨j, hj⟩) = false) ∨
          ((∀ j (hj : j < sd.passes.length),
              isImagePass (sd.passes.get ⟨j, hj⟩) = false) ∧
            some p = sd.passes.head?))) ∧
    getMainShaderPass scenarioCData = some (scenarioCData.passes.get ⟨1, by decide⟩) := by
  constructor
  · intro sd hne
    unfold getMainShaderPass
    rcases hf : sd.passes.find? (fun p => p.type == "image" || p.name == "Image") with _ | p
    · rcases hh : sd.passes.head? with _ | p0
      · exact absurd (List.head?_eq_none_iff.mp hh) hne
      · refine ⟨p0, ?_, Or.inr ⟨?_, rfl⟩⟩
        · rw [hf]
        · intro j hj
          have := List.find?_eq_none.mp hf (sd.passes.get ⟨j, hj⟩) (List.get_mem sd.passes j hj)
          simpa [isImagePass] using this
    · refine ⟨p, ?_, Or.inl ?_⟩
      · rw [hf]
      · obtain ⟨i, hi, ha, hPa, hfirst⟩ := find?_first _ sd.passes p hf
        exact ⟨i, hi, ha, by simpa [isImagePass] using hPa,
          fun j hj hji => by simpa [isImagePass] using hfirst j hj hji⟩
  · decide

/-- C2 witness: the universal part applied to the scenario C container. -/
theorem getMainShaderPass_spec_witness :
    scenarioCData.passes ≠ [] ∧
      (∃ p, getMainShaderPass scenarioCData = some p ∧
        ((∃ i, ∃ hi : i < scenarioCData.passes.length,
            p = scenarioCData.passes.get ⟨i, hi⟩ ∧ isImagePass p = true ∧
            ∀ j (hj : j < scenarioCData.passes.length), j < i →
              isImagePass (scenarioCData.passes.get ⟨j, hj⟩) = false) ∨
          ((∀ j (hj : j < scenarioCData.passes.length),
              isImagePass (scenarioCData.passes.get ⟨j, hj⟩) = false) ∧
            some p = scenarioCData.passes.head?))) :=
  ⟨by decide, getMainShaderPass_spec.1 scenarioCData (by decide)⟩

/-! ## C3 and C4: emission rule and repeated application of the comment stripper -/

/-- Per-line stripping results (emitted characters and state after the
line) for a list of lines, threading the block-comment state. -/
def lineResults (inB : Bool) : List (List Char) → List (List Char × Bool)
  | [] => []
  | l :: rest =>
    let p := stripLineChars inB l
    p :: lineResults p.2 rest

/-- Emission rule written from the words of the specification: a processed
line is kept when it has non-whitespace content after stripping or when a
block comment is STILL OPEN after the line. Modelled from the spec for
comparison with the code; it differs from the code exactly in the second
disjunct. -/
def removeCommentsClaimLines : Bool → List (List Char) → List Char
  | _, [] => []
  | inB, l :: rest =>
    let p := stripLineChars inB l
    (if !(trimSpace p.1).isEmpty || p.2 == true then p.1 ++ ['\n'] else []) ++
      removeCommentsClaimLines p.2 rest

/-- Comment stripper with the emission rule of the specification text. -/
def removeCommentsClaim (code : String) : String :=
  ⟨removeCommentsClaimLines false (splitNl code.data)⟩

/-- C3 counterexample: on the one-line input consisting of a block-comment
opener, the stripped line is blank and a block comment is still open at
the end of the line, so the claim emits the line while the code drops it;
on the empty input, the blank line with no open block comment is dropped
by the claim but emitted by the code. -/
theorem removeComments_emission_cex :
    removeComments "/*" = "" ∧ removeCommentsClaim "/*" = "\n" ∧
      removeComments "" = "\n" ∧ removeCommentsClaim "" = "" := by
  decide

/-- C3 (amended): for every input text and every line, the processed line
is emitted in the output exactly when it has non-whitespace content after
comment removal, or when NO block comment is open at the end of processing
that line; equivalently, a line is dropped exactly when it is blank after
stripping and lies inside a still-open block comment. -/
theorem removeComments_emission_amended (code : String) :
    removeComments code =
      ⟨((lineResults false (splitNl code.data)).map
          (fun p => if !(trimSpace p.1).isEmpty || p.2 == false then p.1 ++ ['\n'] else [])).flatten⟩ := by
  have main : ∀ (ls : List (List Char)) (inB : Bool),
      removeCommentsLines inB ls =
        ((lineResults inB ls).map
          (fun p => if !(trimSpace p.1).isEmpty || p.2 == false then p.1 ++ ['\n'] else [])).flatten := by
    intro ls
    induction ls with
    | nil => intro inB; rfl
    | cons l rest ih =>
      intro inB
      rw [removeCommentsLines, lineResults]
      simp only [List.map_cons, List.flatten_cons]
      rw [ih]
  exact congrArg String.mk (main _ false)

/-- Lines with no two-character comment opener or line-comment start. -/
def safeLine : List Char → Bool
  | a :: b :: rest => (!(a == '/' && (b == '/' || b == '*'))) && safeLine (b :: rest)
  | _ => true

theorem safeLine_tail {c : Char} {l : List Char} (h : safeLine (c :: l) = true) :
    safeLine l = true := by
  cases l with
  | nil => rfl
  | cons d t =>
    rw [safeLine, Bool.and_eq_true] at h
    exact h.2

/-- Generic-copy equation of the character loop: when the head does not
start a comment, it is copied and the loop continues. -/
theorem strip_cons_generic (c : Char) (rest : List Char)
    (h : ∀ d t, rest = d :: t → ¬(c = '/' ∧ (d = '/' ∨ d = '*'))) :
    stripLineChars false (c :: rest) =
      (c :: (stripLineChars false rest).1, (stripLineChars false rest).2) := by
  rw [stripLineChars.eq_def]
  split <;> simp_all

theorem safeLine_cons (c : Char) (out : List Char)
    (h1 : safeLine out = true)
    (h2 : c = '/' → ∀ d t, out = d :: t → d ≠ '/' ∧ d ≠ '*') :
    safeLine (c :: out) = true := by
  cases out with
  | nil => rfl
  | cons d t =>
    rw [safeLine, Bool.and_eq_true]
    refine ⟨?_, h1⟩
    by_cases hc : c = '/'
    · obtain ⟨hd1, hd2⟩ := h2 hc d t rfl
      simp [hc, hd1, hd2]
    · simp [hc]

/-- Output lines of the character loop never contain a comment opener or a
line-comment start. -/
theorem strip_safe : ∀ (inB : Bool) (l : List Char),
    safeLine (stripLineChars inB l).1 = true := by
  intro inB l
  induction inB, l using stripLineChars.induct
  case case1 rest ih => simpa [stripLineChars] using ih
  case case2 c rest h ih => simpa [stripLineChars] using ih
  case case3 => simp [stripLineChars, safeLine]
  case case4 rest ih => simpa [stripLineChars] using ih
  case case5 rest => simp [stripLineChars, safeLine]
  case case6 c rest h1 h2 ih =>
    simp only [stripLineChars]
    refine safeLine_cons c _ ih ?_
    intro hc d t hout
    subst hc
    cases rest with
    | nil => simp [stripLineChars] at hout
    | cons e t2 =>
      have he1 : e ≠ '*' := fun he => h1 t2 rfl (by rw [he])
      have he2 : e ≠ '/' := fun he => h2 t2 rfl (by rw [he])
      rw [strip_cons_generic e t2 (by intro d2 t3 _ hcon; exact he2 hcon.1)] at hout
      simp only [List.cons.injEq] at hout
      exact ⟨hout.1 ▸ he2, hout.1 ▸ he1⟩
  case case7 => simp [stripLineChars, safeLine]

/-- The character loop emits only characters of its input line. -/
theorem strip_nlfree : ∀ (inB : Bool) (l : List Char), '\n' ∉ l →
    '\n' ∉ (stripLineChars inB l).1 := by
  intro inB l
  induction inB, l using stripLineChars.induct
  case case1 rest ih =>
    intro h
    simpa [stripLineChars] using ih (by simp_all)
  case case2 c rest h ih =>
    intro hn
    simpa [stripLineChars] using ih (by simp_all)
  case case3 => intro _; simp [stripLineChars]
  case case4 rest ih =>
    intro hn
    simpa [stripLineChars] using ih (by simp_all)
  case case5 rest => intro _; simp [stripLineChars]
  case case6 c rest h1 h2 ih =>
    intro hn
    simp only [stripLineChars, List.mem_cons, not_or]
    constructor
    · intro hc; exact hn (by rw [hc]; exact List.mem_cons_self _ _)
    · exact ih (fun hm => hn (List.mem_cons_of_mem _ hm))
  case case7 => intro _; simp [stripLineChars]

/-- Stripping an already-safe line changes nothing and opens no block
comment. -/
theorem strip_safe_id : ∀ (l : List Char), safeLine l = true →
    stripLineChars false l = (l, false) := by
  intro l
  induction l with
  | nil => intro _; rfl
  | cons c rest ih =>
    intro hs
    have hgen : ∀ d t, rest = d :: t → ¬(c = '/' ∧ (d = '/' ∨ d = '*')) := by
      intro d t hrest hcon
      rw [hrest] at hs
      rw [safeLine, Bool.and_eq_true] at hs
      rcases hcon with ⟨hc, hd⟩
      rcases hd with hd | hd <;> simp [hc, hd] at hs
    rw [strip_cons_generic c rest hgen, ih (safeLine_tail hs)]

/-- Kept stripped lines of the line loop. -/
def keptLines : Bool → List (List Char) → List (List Char)
  | _, [] => []
  | inB, l :: rest =>
    let p := stripLineChars inB l
    (if !(trimSpace p.1).isEmpty || p.2 == false then [p.1] else []) ++ keptLines p.2 rest

/-- The line loop output is the kept lines, each followed by a newline. -/
theorem removeCommentsLines_eq_kept : ∀ (ls : List (List Char)) (inB : Bool),
    removeCommentsLines inB ls = ((keptLines inB ls).map (· ++ ['\n'])).flatten := by
  intro ls
  induction ls with
  | nil => intro inB; rfl
  | cons l rest ih =>
    intro inB
    rw [removeCommentsLines, keptLines]
    by_cases hc : (!(trimSpace (stripLineChars inB l).1).isEmpty ||
        (stripLineChars inB l).2 == false) = true
    · simp only [hc, if_true, List.map_append, List.flatten_append]
      simp [ih]
    · rw [Bool.not_eq_true] at hc
      simp only [hc, Bool.false_eq_true, if_false]
      simp [ih]

/-- Kept lines are safe and newline-free when the input lines are
newline-free. -/
theorem keptLines_safe : ∀ (ls : List (List Char)) (inB : Bool),
    (∀ l ∈ ls, '\n' ∉ l) →
    ∀ o ∈ keptLines inB ls, safeLine o = true ∧ '\n' ∉ o := by
  intro ls
  induction ls with
  | nil => intro inB _ o ho; simp [keptLines] at ho
  | cons l rest ih =>
    intro inB hnl o ho
    rw [keptLines] at ho
    simp only [List.mem_append] at ho
    rcases ho with ho | ho
    · have : o = (stripLineChars inB l).1 := by
        by_cases hc : (!(trimSpace (stripLineChars inB l).1).isEmpty ||
            (stripLineChars inB l).2 == false) = true
        · simp only [hc, if_true, List.mem_singleton] at ho
          exact ho
        · rw [Bool.not_eq_true] at hc
          simp [hc] at ho
          exact ho.2
      rw [this]
      exact ⟨strip_safe inB l, strip_nlfree inB l (hnl l (List.mem_cons_self _ _))⟩
    · exact ih _ (fun l2 hl2 => hnl l2 (List.mem_cons_of_mem _ hl2)) o ho

/-- Lines produced by splitting contain no newline. -/
theorem splitNlA_nlfree : ∀ (l : List Char),
    '\n' ∉ (splitNlA l).1 ∧ ∀ x ∈ (splitNlA l).2, '\n' ∉ x := by
  intro l
  induction l with
  | nil => exact ⟨by simp [splitNlA], by simp [splitNlA]⟩
  | cons c rest ih =>
    by_cases hc : c = '\n'
    · subst hc
      refine ⟨by simp [splitNlA], ?_⟩
      intro x hx
      rw [splitNlA] at hx
      simp only [List.mem_cons] at hx
      rcases hx with hx | hx
      · rw [hx]; exact ih.1
      · exact ih.2 x hx
    · have heq : splitNlA (c :: rest) = (c :: (splitNlA rest).1, (splitNlA rest).2) := by
        rw [splitNlA.eq_def]
        split <;> simp_all
      rw [heq]
      refine ⟨?_, ih.2⟩
      simp only [List.mem_cons, not_or]
      exact ⟨fun h => hc h.symm, ih.1⟩

theorem splitNl_nlfree (l : List Char) : ∀ x ∈ splitNl l, '\n' ∉ x := by
  intro x hx
  rw [splitNl] at hx
  simp only [List.mem_cons] at hx
  rcases hx with hx | hx
  · rw [hx]; exact (splitNlA_nlfree l).1
  · exact (splitNlA_nlfree l).2 x hx

/-- Splitting a newline-free line followed by a newline peels that line. -/
theorem splitNlA_append (o t : List Char) (ho : '\n' ∉ o) :
    splitNlA (o ++ '\n' :: t) = (o, (splitNlA t).1 :: (splitNlA t).2) := by
  induction o with
  | nil => rfl
  | cons c o2 ih =>
    have hc : c ≠ '\n' := fun h => ho (by rw [h]; exact List.mem_cons_self _ _)
    have heq : splitNlA (c :: (o2 ++ '\n' :: t)) =
        (c :: (splitNlA (o2 ++ '\n' :: t)).1, (splitNlA (o2 ++ '\n' :: t)).2) := by
      rw [splitNlA.eq_def]
      split <;> simp_all
    simp only [List.cons_append, heq, ih (fun hm => ho (List.mem_cons_of_mem _ hm))]

/-- Splitting the concatenation of newline-terminated lines recovers the
lines followed by one empty line. -/
theorem splitNl_flatten : ∀ (os : List (List Char)), (∀ o ∈ os, '\n' ∉ o) →
    splitNl ((os.map (· ++ ['\n'])).flatten) = os ++ [[]] := by
  intro os
  induction os with
  | nil => intro _; rfl
  | cons o rest ih =>
    intro hnl
    simp only [List.map_cons, List.flatten_cons]
    have : o ++ ['\n'] ++ ((rest.map (· ++ ['\n'])).flatten) =
        o ++ '\n' :: ((rest.map (· ++ ['\n'])).flatten) := by simp
    rw [this, splitNl, splitNlA_append _ _ (hnl o (List.mem_cons_self _ _))]
    have ih2 := ih (fun x hx => hnl x (List.mem_cons_of_mem _ hx))
    rw [splitNl] at ih2
    simpa using ih2

/-- Stripping lines that are already safe keeps every line. -/
theorem removeCommentsLines_safe_all : ∀ (os : List (List Char)),
    (∀ o ∈ os, safeLine o = true) →
    removeCommentsLines false (os ++ [[]]) =
      ((os.map (· ++ ['\n'])).flatten) ++ ['\n'] := by
  intro os
  induction os with
  | nil => intro _; rfl
  | cons o rest ih =>
    intro hs
    rw [List.cons_append, removeCommentsLines]
    rw [strip_safe_id o (hs o (List.mem_cons_self _ _))]
    simp only [Bool.or_true, beq_self_eq_true, if_true]
    rw [ih (fun x hx => hs x (List.mem_cons_of_mem _ hx))]
    simp

/-- C4 counterexample: the comment stripper is not idempotent; on the
input consisting of the single character a, one application yields the
line with a trailing newline and a second application appends another
newline. -/
theorem removeComments_idem_cex :
    removeComments (removeComments "a") ≠ removeComments "a" := by
  decide

/-- C4 (amended): a second application of the comment stripper removes no
bytes and changes nothing except appending exactly one final newline (the
split of the newline-terminated output ends with one empty line, which is
emitted as a bare newline). -/
theorem removeComments_twice (s : String) :
    removeComments (removeComments s) = removeComments s ++ "\n" := by
  have happ : ∀ (l1 l2 : List Char), String.mk l1 ++ String.mk l2 = String.mk (l1 ++ l2) := by
    intro l1 l2; rfl
  show String.mk (removeCommentsLines false
      (splitNl (removeCommentsLines false (splitNl s.data)))) = _
  have hknl := keptLines_safe (splitNl s.data) false (fun l hl => splitNl_nlfree s.data l hl)
  rw [removeCommentsLines_eq_kept (splitNl s.data) false]
  rw [splitNl_flatten (keptLines false (splitNl s.data)) (fun o ho => (hknl o ho).2)]
  rw [removeCommentsLines_safe_all (keptLines false (splitNl s.data))
    (fun o ho => (hknl o ho).1)]
  rw [show removeComments s = String.mk ((((keptLines false (splitNl s.data))).map
      (· ++ ['\n'])).flatten) from by
    rw [removeComments, removeCommentsLines_eq_kept]]
  rw [show ("\n" : String) = String.mk ['\n'] from rfl, happ]

/-! ## C7: the string-literal escaper -/

/-- Hexadecimal digits are printable characters. -/
theorem hexDigit_printable (k : Nat) : 0x20 ≤ (hexDigit k).toNat := by
  unfold hexDigit
  by_cases hk : k < 16
  · interval_cases k <;> decide
  · rw [List.getD_eq_default]
    · decide
    · simpa using Nat.le_of_not_lt hk

/-- Chunks emitted by a step taken in the in-string, non-escape-consumed
state contain no byte below hexadecimal 20. -/
theorem ppStep_inString_no_control (prev : List Char) (c : Char) :
    (ppStep prev true false c).2.2.all (fun d => decide (0x20 ≤ d.toNat)) = true := by
  by_cases h1 : c = '\\'
  · subst h1; simp [ppStep]
  · by_cases h2 : c = '"'
    · subst h2; simp [ppStep]
    · have hstep : (ppStep prev true false c).2.2 = ppEmitInString c := by
        simp [ppStep, h1, h2]
      rw [hstep]
      unfold ppEmitInString
      by_cases h3 : c = '\n'
      · simp [h3]
      · by_cases h4 : c = '\r'
        · simp [h3, h4]
        · by_cases h5 : c = '\t'
          · simp [h3, h4, h5]
          · by_cases h6 : c.toNat < 0x20
            · simp only [h3, h4, h5, h6, if_false, if_true, if_neg, if_pos]
              rw [List.all_eq_true]
              intro d hd
              simp only [List.mem_cons, List.not_mem_nil, or_false] at hd
              rcases hd with h | h | h | h | h | h <;> subst h
              · decide
              · decide
              · decide
              · decide
              · simpa using hexDigit_printable _
              · simpa using hexDigit_printable _
            · simp only [h3, h4, h5, h6, if_false, if_neg]
              simp only [List.all_cons, List.all_nil, Bool.and_true]
              simpa using Nat.le_of_not_lt h6

/-- C7: the escaper never reports an error; every step taken outside a
string literal (and not escape-consumed) copies its byte unchanged; inside
a string literal a newline becomes backslash n, a carriage return
backslash r, a tab backslash t, and any other byte below hexadecimal 20 a
backslash u escape with its two lowercase hexadecimal digits; and over any
whole input, no step taken in the in-string, non-escape-consumed state
ever emits a raw control byte. -/
theorem preprocessJSON_escapes :
    (∀ data : String, (preprocessJSON data).2 = none) ∧
    (∀ (prev : List Char) (c : Char), (ppStep prev false false c).2.2 = [c]) ∧
    (∀ prev : List Char, (ppStep prev true false '\n').2.2 = ['\\', 'n']) ∧
    (∀ prev : List Char, (ppStep prev true false '\r').2.2 = ['\\', 'r']) ∧
    (∀ prev : List Char, (ppStep prev true false '\t').2.2 = ['\\', 't']) ∧
    (∀ (prev : List Char) (c : Char), c.toNat < 0x20 → c ≠ '\n' → c ≠ '\r' → c ≠ '\t' →
      (ppStep prev true false c).2.2 =
        ['\\', 'u', '0', '0', hexDigit (c.toNat / 16), hexDigit (c.toNat % 16)]) ∧
    (∀ data : String, ppRawControlInString [] false false data.data = false) := by
  refine ⟨fun _ => rfl, ?_, fun _ => rfl, fun _ => rfl, fun _ => rfl, ?_, ?_⟩
  · intro prev c
    unfold ppStep
    split_ifs <;> rfl
  · intro prev c hlt hn hr ht
    have h1 : c ≠ '\\' := by intro h; rw [h] at hlt; exact absurd hlt (by decide)
    have h2 : c ≠ '"' := by intro h; rw [h] at hlt; exact absurd hlt (by decide)
    have hstep : (ppStep prev true false c).2.2 = ppEmitInString c := by
      simp [ppStep, h1, h2]
    rw [hstep]
    unfold ppEmitInString
    simp [hn, hr, ht, hlt]
  · intro data
    have main : ∀ (l prev : List Char) (inS esc : Bool),
        ppRawControlInString prev inS esc l = false := by
      intro l
      induction l with
      | nil => intro prev inS esc; rfl
      | cons c rest ih =>
        intro prev inS esc
        rw [ppRawControlInString]
        rw [ih]
        simp only [Bool.or_false]
        by_cases h1 : inS = true
        · by_cases h2 : esc = false
          · subst h1; subst h2
            have hall := ppStep_inString_no_control prev c
            rw [List.all_eq_true] at hall
            simp only [Bool.true_and, Bool.not_false]
            rw [List.any_eq_false]
            intro d hd
            have := hall d hd
            simp only [decide_eq_true_eq] at this ⊢
            omega
          · rw [Bool.not_eq_false] at h2
            subst h2
            simp
        · rw [Bool.not_eq_true] at h1
          subst h1
          simp
    exact main data.data [] false false

/-- C7 witness: the escaper theorem applied at a concrete control
character, together with a concrete whole-string run showing the escaped
output. -/
theorem preprocessJSON_escapes_witness :
    ((('\x01' : Char).toNat < 0x20 ∧ ('\x01' : Char) ≠ '\n' ∧
        ('\x01' : Char) ≠ '\r' ∧ ('\x01' : Char) ≠ '\t') ∧
      (ppStep [] true false '\x01').2.2 =
        ['\\', 'u', '0', '0', hexDigit (('\x01' : Char).toNat / 16),
          hexDigit (('\x01' : Char).toNat % 16)]) ∧
    (preprocessJSON "\"a\n\teof").1 = "\"a\\n\\teof" :=
  ⟨⟨⟨by decide, by decide, by decide, by decide⟩,
      preprocessJSON_escapes.2.2.2.2.2.1 [] '\x01' (by decide) (by decide) (by decide)
        (by decide)⟩,
    by decide⟩

/-! ## C9: loop preinitialization -/

/-- Modelled from the spec: the brace-balanced body of a loop, read from
its opening brace to the matching closing brace. Used only to state what
the claim calls the loop body; the code itself never computes this span
and instead tests the whole text from the opening brace to the end. -/
def braceBodyAux : Nat → Int → List Char → List Char
  | 0, _, _ => []
  | _ + 1, _, [] => []
  | fuel + 1, depth, c :: rest =>
    let d2 : Int :=
      if c = '\x7b' then depth + 1 else if c = '\x7d' then depth - 1 else depth
    c :: (if d2 = 0 then [] else braceBodyAux fuel d2 rest)

/-- Brace-balanced span starting at the head of the text. -/
def braceBody (s : List Char) : List Char :=
  braceBodyAux s.length 0 s

/-- C9 counterexample: a pipeline run in which the repair-state map holds
the variable w, the only loop has a brace-balanced body that never
references w (w is referenced after the loop), and the loop pass still
inserts an initialization before the loop header, because the code tests
the whole text from the loop body on rather than the loop body. -/
theorem loopPreInit_cex :
    fixShaderCodePreLoop "for(int j=0;j<3;j++)\x7b float q=1.0; \x7d\nw;\nfloat z = w.x;\n".data =
      ("for(int j=0;j<3;j++)\x7b float q=1.0; \x7d\nfloat w = 0;\nfloat z = w.x;".data,
        [("w".data, "0".data)]) ∧
    loopFindAll "for(int j=0;j<3;j++)\x7b float q=1.0; \x7d\nfloat w = 0;\nfloat z = w.x;".data =
      [(0, 20)] ∧
    braceBody
        ("for(int j=0;j<3;j++)\x7b float q=1.0; \x7d\nfloat w = 0;\nfloat z = w.x;".data.drop 20) =
      "\x7b float q=1.0; \x7d".data ∧
    containsSub "\x7b float q=1.0; \x7d".data "w".data = false ∧
    fixShaderCode "for(int j=0;j<3;j++)\x7b float q=1.0; \x7d\nw;\nfloat z = w.x;\n" =
      "    w = 0;\nfor(int j=0;j<3;j++)\x7b float q=1.0; \x7d\nfloat w = 0;\nfloat z = w.x;" := by
  refine ⟨by decide, by decide, by decide, by decide, by decide⟩

/-- Initialization statement inserted before a loop for one recorded
variable, main.go line 1090. -/
def initStmt (kv : List Char × List Char) : List Char :=
  "    ".data ++ kv.1 ++ " = ".data ++ kv.2 ++ ";".data ++ ['\n']

/-- C9 (amended): for one loop match with header span s to e and opening
brace at offset bi after the header, the loop pass inserts, immediately
before the loop header, exactly one initialization statement with its
recorded default for each entry of the repair-state map whose variable is
referenced in the text from the opening brace onward (not merely the loop
body) and has no assignment in the text before the header; entries are
inserted in reverse map order and nothing else changes. -/
theorem processLoopMatch_inserts (uninit : List (List Char × List Char))
    (cd : List Char) (s e bi : Nat) (hs : s ≤ cd.length)
    (hbi : indexOfSub (cd.drop e) ['\x7b'] = some bi) :
    processLoopMatch uninit cd (s, e) =
      cd.take s ++
        (((uninit.filter (fun kv => refCheckLoop (cd.drop (e + bi)) kv.1 &&
            !assignedBefore (cd.take s) kv.1)).reverse.map initStmt).flatten ++
          cd.drop s) := by
  have htl : (cd.take s).length = s := by
    rw [List.length_take]
    omega
  have key : ∀ (m : List (List Char × List Char)) (blk : List Char),
      m.foldl (loopInsertVar s (cd.take s) (cd.drop (e + bi)))
          (cd.take s ++ (blk ++ cd.drop s)) =
        cd.take s ++
          ((((m.filter (fun kv => refCheckLoop (cd.drop (e + bi)) kv.1 &&
              !assignedBefore (cd.take s) kv.1)).reverse.map initStmt).flatten) ++
            (blk ++ cd.drop s)) := by
    intro m
    induction m with
    | nil => intro blk; simp
    | cons kv m2 ih =>
      intro blk
      rw [List.foldl_cons]
      by_cases hcond : (refCheckLoop (cd.drop (e + bi)) kv.1 &&
          !assignedBefore (cd.take s) kv.1) = true
      · have hstep : loopInsertVar s (cd.take s) (cd.drop (e + bi))
            (cd.take s ++ (blk ++ cd.drop s)) kv =
            cd.take s ++ ((initStmt kv ++ blk) ++ cd.drop s) := by
          unfold loopInsertVar
          rw [if_pos hcond]
          rw [List.take_left' htl, List.drop_left' htl]
          simp [initStmt]
        rw [hstep, ih (initStmt kv ++ blk)]
        simp [List.filter_cons, hcond, initStmt]
      · have hstep : loopInsertVar s (cd.take s) (cd.drop (e + bi))
            (cd.take s ++ (blk ++ cd.drop s)) kv =
            cd.take s ++ (blk ++ cd.drop s) := by
          unfold loopInsertVar
          rw [if_neg hcond]
        rw [hstep, ih blk]
        rw [Bool.not_eq_true] at hcond
        simp [List.filter_cons, hcond]
  have hsplit : cd = cd.take s ++ ([] ++ cd.drop s) := by
    simp [List.take_append_drop]
  unfold processLoopMatch
  dsimp only
  rw [hbi]
  calc uninit.foldl (loopInsertVar s (cd.take s) (cd.drop (e + bi))) cd
      = uninit.foldl (loopInsertVar s (cd.take s) (cd.drop (e + bi)))
          (cd.take s ++ ([] ++ cd.drop s)) := by rw [← hsplit]
    _ = _ := by rw [key uninit []]; simp

/-- C9 witness: the amended theorem applied to a concrete one-entry map
and one-loop text where the condition holds. -/
theorem processLoopMatch_inserts_witness :
    (0 : Nat) ≤ "for(x)\x7bw=1;\x7d".data.length ∧
      indexOfSub ("for(x)\x7bw=1;\x7d".data.drop 6) ['\x7b'] = some 0 ∧
      processLoopMatch [("w".data, "0.0".data)] "for(x)\x7bw=1;\x7d".data (0, 6) =
        "for(x)\x7bw=1;\x7d".data.take 0 ++
          ((((([("w".data, "0.0".data)]).filter
              (fun kv => refCheckLoop ("for(x)\x7bw=1;\x7d".data.drop (6 + 0)) kv.1 &&
                !assignedBefore ("for(x)\x7bw=1;\x7d".data.take 0) kv.1)).reverse.map
                initStmt).flatten) ++
            "for(x)\x7bw=1;\x7d".data.drop 0) :=
  ⟨by decide, by decide,
    processLoopMatch_inserts [("w".data, "0.0".data)] "for(x)\x7bw=1;\x7d".data 0 6 0
      (by decide) (by decide)⟩

/-! ## C8: duplicate-output-declaration fixer -/

/-- C8 counterexample: a line holding two typed fragColor declarations is
rewritten from its first occurrence of fragColor only, so the rewritten
line inside the entry span still contains the typed declaration text; the
claimed invariant fails. -/
theorem fixMainImageFragColor_cex :
    fixMainImageFragColor
        "void mainImage()\x7b\n vec4 fragColor = a; vec4 fragColor = b;\n\x7d" =
      "void mainImage()\x7b\n fragColor = a; vec4 fragColor = b;\n\x7d" ∧
    findMainImageStart
        (splitNl "void mainImage()\x7b\n fragColor = a; vec4 fragColor = b;\n\x7d".data) =
      some 0 ∧
    fmEndGo 0 0 0
        (splitNl "void mainImage()\x7b\n fragColor = a; vec4 fragColor = b;\n\x7d".data) = 3 ∧
    containsSub
        ((splitNl "void mainImage()\x7b\n fragColor = a; vec4 fragColor = b;\n\x7d".data).getD 1 [])
        "vec4 fragColor =".data = true := by
  refine ⟨by decide, by decide, by decide, by decide⟩

theorem fmRewrite_length (st en : Nat) : ∀ (ls : List (List Char)) (k : Nat),
    (fmRewrite st en k ls).length = ls.length := by
  intro ls
  induction ls with
  | nil => intro k; rfl
  | cons l rest ih => intro k; simp [fmRewrite, ih]

theorem fmRewrite_getD (st en : Nat) : ∀ (ls : List (List Char)) (k i : Nat),
    i < ls.length →
    (fmRewrite st en k ls).getD i [] =
      (if st ≤ k + i ∧ k + i < en then fmFixLine (ls.getD i []) else ls.getD i []) := by
  intro ls
  induction ls with
  | nil => intro k i hi; simp at hi
  | cons l rest ih =>
    intro k i hi
    cases i with
    | zero => simp [fmRewrite]
    | succ i2 =>
      have hi2 : i2 < rest.length := by simpa using hi
      have := ih (k + 1) i2 hi2
      simp only [fmRewrite, List.getD_cons_succ]
      rw [this]
      have harith : k + 1 + i2 = k + (i2 + 1) := by omega
      rw [harith]

/-- Space-indented text cannot start an occurrence of a pattern beginning
with the letter v. -/
theorem containsSub_replicate_sp (p s : List Char) :
    ∀ n : Nat, containsSub (List.replicate n ' ' ++ s) ('v' :: p) =
      containsSub s ('v' :: p) := by
  intro n
  induction n with
  | zero => rfl
  | succ m ih =>
    rw [List.replicate_succ, List.cons_append, containsSub]
    rw [show isPrefL ('v' :: p) (' ' :: (List.replicate m ' ' ++ s)) = false from rfl]
    rw [Bool.false_or]
    exact ih

/-- Dropping the length of a prefix plus k drops k of the suffix. -/
theorem drop_append_len (x : List Char) (k : Nat) :
    ∀ pre : List Char, (pre ++ x).drop (pre.length + k) = x.drop k := by
  intro pre
  induction pre with
  | nil => rw [List.nil_append, List.length_nil, Nat.zero_add]
  | cons a r ih =>
    rw [List.cons_append, List.length_cons]
    rw [show r.length + 1 + k = (r.length + k) + 1 from by omega]
    rw [List.drop_succ_cons]
    exact ih

/-- A list is a prefix of itself followed by anything. -/
theorem isPrefL_append_self : ∀ (p t : List Char), isPrefL p (p ++ t) = true := by
  intro p
  induction p with
  | nil => intro t; rfl
  | cons c rest ih => intro t; simp [isPrefL, ih]

/-- A text that embeds the pattern after any prefix contains it. -/
theorem containsSub_append_self (c : Char) (cs r : List Char) :
    ∀ pre : List Char, containsSub (pre ++ ((c :: cs) ++ r)) (c :: cs) = true := by
  intro pre
  induction pre with
  | nil =>
    rw [List.nil_append, List.cons_append, containsSub]
    rw [show isPrefL (c :: cs) (c :: (cs ++ r)) = true from by
      rw [← List.cons_append]
      exact isPrefL_append_self (c :: cs) r]
    rw [Bool.true_or]
  | cons a rest ih =>
    rw [List.cons_append, containsSub, ih, Bool.or_true]

/-- C8 (amended): when the entry function is found, the fixer preserves
the number of lines (it never inserts a declaration or any line), leaves
every line outside the brace-balanced span unchanged, and applies the
per-line rule to every line inside the span. The trigger is a substring
test on the trimmed line: every span line whose trimmed text CONTAINS
vec4 fragColor = anywhere is replaced by spaces matching the indentation
width followed by the trimmed text from its first occurrence of
fragColor, so any code preceding the declaration on the same line is
deleted; when that first occurrence belongs to the typed declaration and
the declaration tail holds no second typed occurrence, no typed fragColor
declaration remains on the rewritten line. The last conjunct is the
deletion end to end: the statement x=1; before the declaration is
erased. -/
theorem fixMainImageFragColor_amended (lines : List (List Char)) (st : Nat)
    (hst : findMainImageStart lines = some st) :
    (fixMainImageFragColorLines lines).length = lines.length ∧
    (∀ i, i < lines.length → (i < st ∨ fmEndGo st st 0 (lines.drop st) ≤ i) →
      (fixMainImageFragColorLines lines).getD i [] = lines.getD i []) ∧
    (∀ i, i < lines.length → st ≤ i → i < fmEndGo st st 0 (lines.drop st) →
      (fixMainImageFragColorLines lines).getD i [] = fmFixLine (lines.getD i [])) ∧
    (∀ i, i < lines.length → st ≤ i → i < fmEndGo st st 0 (lines.drop st) →
      ∀ pre rest2,
      trimSpace (lines.getD i []) = pre ++ ("vec4 fragColor =".data ++ rest2) →
      indexOfSub (trimSpace (lines.getD i [])) "fragColor".data =
        some (pre.length + 5) →
      containsSub rest2 "vec4 fragColor =".data = false →
      containsSub rest2 "vec4 fragColor=".data = false →
      (fixMainImageFragColorLines lines).getD i [] =
        List.replicate ((lines.getD i []).length - (trimLeftSpTab (lines.getD i [])).length)
            ' ' ++ ("fragColor =".data ++ rest2) ∧
      containsSub ((fixMainImageFragColorLines lines).getD i [])
        "vec4 fragColor =".data = false ∧
      containsSub ((fixMainImageFragColorLines lines).getD i [])
        "vec4 fragColor=".data = false) ∧
    fixMainImageFragColor "void mainImage()\x7b\n  x=1; vec4 fragColor = a;\n\x7d" =
      "void mainImage()\x7b\n  fragColor = a;\n\x7d" := by
  have hout : fixMainImageFragColorLines lines =
      fmRewrite st (fmEndGo st st 0 (lines.drop st)) 0 lines := by
    unfold fixMainImageFragColorLines
    rw [hst]
  refine ⟨by rw [hout]; exact fmRewrite_length _ _ lines 0, ?_, ?_, ?_, by decide⟩
  · intro i hi hrange
    rw [hout, fmRewrite_getD _ _ lines 0 i hi]
    rw [if_neg]
    simp only [Nat.zero_add]
    omega
  · intro i hi h1 h2
    rw [hout, fmRewrite_getD _ _ lines 0 i hi]
    rw [if_pos]
    simp only [Nat.zero_add]
    omega
  · intro i hi h1 h2 pre rest2 htr hidx hfree1 hfree2
    have hline : (fixMainImageFragColorLines lines).getD i [] = fmFixLine (lines.getD i []) := by
      rw [hout, fmRewrite_getD _ _ lines 0 i hi]
      rw [if_pos]
      simp only [Nat.zero_add]
      omega
    have hidx2 := hidx
    rw [htr] at hidx2
    have hfix : fmFixLine (lines.getD i []) =
        List.replicate ((lines.getD i []).length - (trimLeftSpTab (lines.getD i [])).length)
            ' ' ++ ("fragColor =".data ++ rest2) := by
      unfold fmFixLine
      dsimp only
      rw [htr]
      rw [show ("vec4 fragColor =".data : List Char) = 'v' :: "ec4 fragColor =".data
        from rfl]
      rw [containsSub_append_self 'v' "ec4 fragColor =".data rest2 pre]
      simp only [Bool.true_or, if_true]
      rw [show ('v' :: "ec4 fragColor =".data : List Char) = "vec4 fragColor =".data
        from rfl]
      rw [hidx2]
      dsimp only
      rw [drop_append_len ("vec4 fragColor =".data ++ rest2) 5 pre]
      rw [show ("vec4 fragColor =".data ++ rest2).drop 5 = "fragColor =".data ++ rest2
        from rfl]
    refine ⟨by rw [hline, hfix], ?_, ?_⟩
    · rw [hline, hfix, containsSub_replicate_sp]
      rw [show containsSub ("fragColor =".data ++ rest2) "vec4 fragColor =".data =
          containsSub rest2 "vec4 fragColor =".data from rfl]
      exact hfree1
    · rw [hline, hfix, containsSub_replicate_sp]
      rw [show containsSub ("fragColor =".data ++ rest2) "vec4 fragColor=".data =
          containsSub rest2 "vec4 fragColor=".data from rfl]
      exact hfree2

/-- C8 witness: the amended theorem applied to an entry function whose
declaration line carries a preceding statement; the rewrite deletes it. -/
theorem fixMainImageFragColor_amended_witness :
    findMainImageStart
        (splitNl "void mainImage()\x7b\n  x=1; vec4 fragColor = a;\n\x7d".data) =
      some 0 ∧
    (fixMainImageFragColorLines
        (splitNl "void mainImage()\x7b\n  x=1; vec4 fragColor = a;\n\x7d".data)).getD 1 [] =
      "  fragColor = a;".data := by
  refine ⟨by decide, ?_⟩
  have h := (fixMainImageFragColor_amended
      (splitNl "void mainImage()\x7b\n  x=1; vec4 fragColor = a;\n\x7d".data) 0
      (by decide)).2.2.2.1
  have h2 := (h 1 (by decide) (by decide) (by decide) "x=1; ".data " a;".data
      (by decide) (by decide) (by decide) (by decide)).1
  exact h2.trans (by decide)

/-! ## C6: the chain-form branch of the uninitialized-variable fixer -/

/-- C6 counterexample: on the chain line float ab = 1.0, b; the
already-initialized check of main.go line 686 is a plain substring test
for the text b with a space and an equals sign, which also matches inside
ab = 1.0, so the fixer skips the line and b is never rewritten, neither by
the chain branch nor by the whole pipeline. -/
theorem chainFix_guard_cex :
    pass1Step "float ab = 1.0, b;\n".data
        (["float ab = 1.0, b;".data], []) 0 =
      (["float ab = 1.0, b;".data], []) ∧
    chainVarFind "float ab = 1.0, b;".data = some "b".data ∧
    containsSub "float ab = 1.0, b;".data "b =".data = true ∧
    fixShaderCode "float ab = 1.0, b;\n" = "float ab = 1.0, b;" := by
  refine ⟨by decide, by decide, by decide, by decide⟩

theorem isWordChar_toNat {c : Char} (h : isWordChar c = true) :
    (97 ≤ c.toNat ∧ c.toNat ≤ 122) ∨ (65 ≤ c.toNat ∧ c.toNat ≤ 90) ∨
    (48 ≤ c.toNat ∧ c.toNat ≤ 57) ∨ c.toNat = 95 := by
  unfold isWordChar at h
  simp only [Bool.or_eq_true, Bool.and_eq_true, decide_eq_true_eq, beq_iff_eq] at h
  rcases h with ((⟨h1, h2⟩ | ⟨h1, h2⟩) | ⟨h1, h2⟩) | h1
  · rw [Char.le_def, UInt32.le_def] at h1 h2
    exact Or.inl ⟨h1, h2⟩
  · rw [Char.le_def, UInt32.le_def] at h1 h2
    exact Or.inr (Or.inl ⟨h1, h2⟩)
  · rw [Char.le_def, UInt32.le_def] at h1 h2
    exact Or.inr (Or.inr (Or.inl ⟨h1, h2⟩))
  · subst h1
    exact Or.inr (Or.inr (Or.inr rfl))

theorem word_not_spaceRE {c : Char} (h : isWordChar c = true) : isSpaceRE c = false := by
  by_contra hF
  rw [Bool.not_eq_false] at hF
  unfold isSpaceRE at hF
  simp only [Bool.or_eq_true, beq_iff_eq] at hF
  rcases hF with ((((h1 | h1) | h1) | h1) | h1) <;> subst h1 <;> exact absurd h (by decide)

theorem word_not_goSpace {c : Char} (h : isWordChar c = true) : isGoSpace c = false := by
  by_contra hF
  rw [Bool.not_eq_false] at hF
  unfold isGoSpace at hF
  simp only [Bool.or_eq_true, Bool.and_eq_true, decide_eq_true_eq, beq_iff_eq] at hF
  have hn := isWordChar_toNat h
  rcases hF with
    ((((((((((((((h1 | h1) | h1) | h1) | h1) | h1) | h1) | h1) | h1) | ⟨h1, h2⟩) | h1) |
      h1) | h1) | h1) | h1) <;>
    first
      | (subst h1; exact absurd h (by decide))
      | omega

/-- A list holding a non-space character does not trim to empty. -/
theorem trimSpace_isEmpty_false {l : List Char} {c : Char} (hc : c ∈ l)
    (h : isGoSpace c = false) : (trimSpace l).isEmpty = false := by
  have h1 : c ∈ l.dropWhile isGoSpace := by
    have hsplit : c ∈ l.takeWhile isGoSpace ++ l.dropWhile isGoSpace := by
      rw [List.takeWhile_append_dropWhile]
      exact hc
    rcases List.mem_append.mp hsplit with h2 | h2
    · exact absurd (List.mem_takeWhile_imp h2) (by simp [h])
    · exact h2
  by_contra hF
  rw [Bool.not_eq_false] at hF
  have h2 : trimSpace l = [] := by simpa using hF
  unfold trimSpace at h2
  rw [List.reverse_eq_nil_iff, List.dropWhile_eq_nil_iff] at h2
  have h3 := h2 c (List.mem_reverse.mpr h1)
  rw [h3] at h
  exact Bool.noConfusion h

theorem takeWhile_append_all (p : Char → Bool) (l1 l2 : List Char)
    (h : ∀ c ∈ l1, p c = true) :
    (l1 ++ l2).takeWhile p = l1 ++ l2.takeWhile p := by
  induction l1 with
  | nil => simp
  | cons c rest ih =>
    rw [List.cons_append, List.takeWhile_cons_of_pos (h c (List.mem_cons_self _ _)),
      ih (fun d hd => h d (List.mem_cons_of_mem _ hd)), List.cons_append]

theorem dropWhile_append_all (p : Char → Bool) (l1 l2 : List Char)
    (h : ∀ c ∈ l1, p c = true) :
    (l1 ++ l2).dropWhile p = l2.dropWhile p := by
  induction l1 with
  | nil => simp
  | cons c rest ih =>
    rw [List.cons_append, List.dropWhile_cons_of_pos (h c (List.mem_cons_self _ _)),
      ih (fun d hd => h d (List.mem_cons_of_mem _ hd))]

/-- Tail of the chain pattern at its comma: one space, a word, a
semicolon. -/
theorem chainTry_at (b : List Char) (hb : b ≠ [])
    (hw : ∀ c ∈ b, isWordChar c = true) :
    chainTry (' ' :: (b ++ [';'])) = some b := by
  rcases b with _ | ⟨bh, bt⟩
  · exact absurd rfl hb
  · have hwh : isWordChar bh = true := hw bh (List.mem_cons_self _ _)
    have hwt : ∀ c ∈ bt, isWordChar c = true := fun c hc => hw c (List.mem_cons_of_mem _ hc)
    have hsp : isSpaceRE bh = false := word_not_spaceRE hwh
    unfold chainTry
    rw [List.takeWhile_cons_of_pos (show isSpaceRE ' ' = true from rfl)]
    rw [List.cons_append, List.takeWhile_cons_of_neg (by simp [hsp])]
    simp only [List.isEmpty_cons, if_false, Bool.false_eq_true]
    rw [List.dropWhile_cons_of_pos (show isSpaceRE ' ' = true from rfl)]
    rw [List.dropWhile_cons_of_neg (by simp [hsp])]
    rw [show bh :: (bt ++ [';']) = (bh :: bt) ++ [';'] from rfl]
    rw [takeWhile_append_all isWordChar (bh :: bt) [';'] (by
      intro c hc
      rcases List.mem_cons.mp hc with h1 | h1
      · rw [h1]; exact hwh
      · exact hwt c h1)]
    rw [List.takeWhile_cons_of_neg (by decide), List.append_nil]
    simp only [List.isEmpty_cons, Bool.false_eq_true, if_false]
    rw [dropWhile_append_all isWordChar (bh :: bt) [';'] (by
      intro c hc
      rcases List.mem_cons.mp hc with h1 | h1
      · rw [h1]; exact hwh
      · exact hwt c h1)]
    rw [List.dropWhile_cons_of_neg (by decide)]
    rw [List.dropWhile_cons_of_neg (by decide)]
    rfl

theorem chainVarFind_cons_skip (c : Char) (rest : List Char) (h : ¬c = ',') :
    chainVarFind (c :: rest) = chainVarFind rest := by
  unfold chainVarFind
  rw [scanFirst]
  have hf : (match c :: rest with
      | ',' :: r => chainTry r
      | _ => (none : Option (List Char))) = none := by
    split
    · rename_i heq
      rw [List.cons.injEq] at heq
      exact absurd heq.1 h
    · rfl
  rw [hf]

theorem chainVarFind_append_skip (pre l : List Char) (h : ∀ c ∈ pre, ¬c = ',') :
    chainVarFind (pre ++ l) = chainVarFind l := by
  induction pre with
  | nil => simp
  | cons c rest ih =>
    rw [List.cons_append, chainVarFind_cons_skip c _ (h c (List.mem_cons_self _ _))]
    exact ih (fun d hd => h d (List.mem_cons_of_mem _ hd))

theorem chainVarFind_comma_hit (r w : List Char) (h : chainTry r = some w) :
    chainVarFind (',' :: r) = some w := by
  unfold chainVarFind
  rw [scanFirst]
  rw [show (match ',' :: r with
      | ',' :: r2 => chainTry r2
      | _ => (none : Option (List Char))) = chainTry r from rfl]
  rw [h]

theorem firstSome_skip_one {α β : Type} (f : α → Option β) (t : α) (ts : List α)
    (h1 : f t = none) : firstSome f (t :: ts) = firstSome f ts := by
  rw [firstSome, h1]

theorem firstSome_cons_some {α β : Type} (f : α → Option β) (t : α) (ts : List α)
    (v : β) (h : f t = some v) : firstSome f (t :: ts) = some v := by
  rw [firstSome, h]

theorem scanFirstB_hit {α : Type} (f : Option Char → List Char → Option α)
    (prev : Option Char) (l : List Char) (a : α) (h : f prev l = some a) :
    scanFirstB f prev l = some a := by
  cases l with
  | nil => rw [scanFirstB, h]
  | cons c rest => rw [scanFirstB, h]

/-- Success of the type-token try at a position when the token is followed
by a space and a word character. -/
theorem typeDeclTryTok_noeq_hit (t s rest2 rest3 : List Char) (ah : Char)
    (hp : stripPrefixL t s = some (' ' :: rest2))
    (hr : rest2 = ah :: rest3)
    (hah : isWordChar ah = true) :
    typeDeclTryTok false t s = some t := by
  unfold typeDeclTryTok
  rw [hp]
  dsimp only
  rw [List.takeWhile_cons_of_pos (show isSpaceRE ' ' = true from rfl)]
  simp only [List.isEmpty_cons, Bool.false_eq_true, if_false]
  rw [List.dropWhile_cons_of_pos (show isSpaceRE ' ' = true from rfl)]
  rw [hr]
  rw [List.dropWhile_cons_of_neg (by simp [word_not_spaceRE hah])]
  rw [List.takeWhile_cons_of_pos hah]
  simp only [List.isEmpty_cons, Bool.false_eq_true, if_false]

theorem replaceFirst_append_comma (pre s o2 new : List Char)
    (h : ∀ c ∈ pre, ¬c = ',') :
    replaceFirst (pre ++ s) (',' :: o2) new = pre ++ replaceFirst s (',' :: o2) new := by
  induction pre with
  | nil => simp
  | cons c rest ih =>
    rw [List.cons_append, replaceFirst]
    rw [show isPrefL (',' :: o2) (c :: (rest ++ s)) = ((',' == c) && isPrefL o2 (rest ++ s))
      from rfl]
    rw [show ((',' : Char) == c) = false from beq_eq_false_iff_ne.mpr
      (fun hc => h c (List.mem_cons_self _ _) hc.symm)]
    rw [Bool.false_and]
    simp only [Bool.false_eq_true, if_false, List.cons_append, List.cons.injEq, true_and]
    exact ih (fun d hd => h d (List.mem_cons_of_mem _ hd))

theorem replaceFirst_prefix (old t new : List Char) (h : old ≠ []) :
    replaceFirst (old ++ t) old new = new ++ t := by
  rcases old with _ | ⟨c, o2⟩
  · exact absurd rfl h
  · rw [List.cons_append, replaceFirst]
    rw [show (c :: (o2 ++ t)) = (c :: o2) ++ t from rfl]
    rw [isPrefL_append_self (c :: o2) t]
    simp only [if_true]
    rw [List.drop_left]

theorem firstSome_of_unique {α β : Type} (f : α → Option β) (t : α) (v : β)
    (hh : f t = some v) :
    ∀ (l : List α), t ∈ l → (∀ u ∈ l, ¬u = t → f u = none) → firstSome f l = some v := by
  intro l
  induction l with
  | nil => intro ht ho; simp at ht
  | cons u rest ih =>
    intro ht ho
    by_cases hu : u = t
    · subst hu
      exact firstSome_cons_some f u rest v hh
    · rw [firstSome_skip_one f u rest (ho u (List.mem_cons_self _ _) hu)]
      refine ih ?_ (fun u2 h2 hne => ho u2 (List.mem_cons_of_mem _ h2) hne)
      rcases List.mem_cons.mp ht with h | h
      · exact absurd h.symm hu
      · exact h

theorem stripPrefixL_append_self (p t : List Char) : stripPrefixL p (p ++ t) = some t := by
  unfold stripPrefixL
  rw [isPrefL_append_self]
  simp only [if_true]
  rw [List.drop_left]

theorem typeSwitch6_nonempty (t z : List Char) (h : typeSwitch6 t = some z) :
    z.isEmpty = false := by
  unfold typeSwitch6 at h
  split_ifs at h <;> (injection h with h2; rw [← h2]; decide)

/-- C6 (amended): for every multi-declaration chain line of the form
T a = x, b; with T one of the six type tokens, a and b identifiers, x free
of commas, and the line NOT containing the text of b followed by a space
and an equals sign anywhere (the already-initialized check of main.go line
686 is a plain substring probe that can also fire inside a or x, in which
case the fixer skips the line), the fixer pass rewrites b to b = z; with z
the zero value of T, leaves the declaration and initializer of a
unchanged, and records b with z in the repair-state map. The second
conjunct is end-to-end scenario B. -/
theorem chainFix_rewrites :
    (∀ (code0 : List Char) (lines : List (List Char))
        (uninit : List (List Char × List Char)) (i : Nat) (T a x b z : List Char),
        T ∈ typeToks6 →
        typeSwitch6 T = some z →
        a ≠ [] → (∀ c ∈ a, isWordChar c = true) →
        b ≠ [] → (∀ c ∈ b, isWordChar c = true) →
        (∀ c ∈ x, ¬c = ',') →
        lines.getD i [] =
          T ++ " ".data ++ a ++ " = ".data ++ x ++ ", ".data ++ b ++ ";".data →
        containsSub (T ++ " ".data ++ a ++ " = ".data ++ x ++ ", ".data ++ b ++ ";".data)
          (b ++ " =".data) = false →
        pass1Step code0 (lines, uninit) i =
          (lines.set i
            (T ++ " ".data ++ a ++ " = ".data ++ x ++ ", ".data ++ b ++ " = ".data ++
              z ++ ";".data),
           assocSet uninit b z)) ∧
    fixShaderCode "float i = .2, a;\nfor(int j=0;j<8;j++)\x7b a += i; \x7d\n" =
      "float i = .2, a = 0.0;\nfor(int j=0;j<8;j++)\x7b a += i; \x7d" := by
  constructor
  · intro code0 lines uninit i T a x b z hT hz ha hwa hb hwb hx hline hguard
    obtain ⟨ah, at2, rfl⟩ : ∃ ah at2, a = ah :: at2 := by
      rcases a with _ | ⟨ah, at2⟩
      · exact absurd rfl ha
      · exact ⟨ah, at2, rfl⟩
    have hwah : isWordChar ah = true := hwa ah (List.mem_cons_self _ _)
    have hzne : z.isEmpty = false := typeSwitch6_nonempty T z hz
    have hTc : ∀ c ∈ T, ¬c = ',' := by
      have hT6 := hT
      simp only [typeToks6, List.mem_cons, List.not_mem_nil, or_false] at hT6
      rcases hT6 with rfl | rfl | rfl | rfl | rfl | rfl <;> decide
    -- the line trims to nonempty text
    have hmem : ah ∈ T ++ " ".data ++ (ah :: at2) ++ " = ".data ++ x ++ ", ".data ++
        b ++ ";".data :=
      List.mem_append_left _ (List.mem_append_left _ (List.mem_append_left _
        (List.mem_append_left _ (List.mem_append_left _ (List.mem_append_right _
          (List.mem_cons_self _ _))))))
    have hne := trimSpace_isEmpty_false hmem (word_not_goSpace hwah)
    -- the prefix before the comma holds no comma
    have hpre : ∀ c ∈ T ++ " ".data ++ (ah :: at2) ++ " = ".data ++ x,
        ¬c = ',' := by
      intro c hc
      rcases List.mem_append.mp hc with hc1 | hc1
      · rcases List.mem_append.mp hc1 with hc2 | hc2
        · rcases List.mem_append.mp hc2 with hc3 | hc3
          · rcases List.mem_append.mp hc3 with hc4 | hc4
            · exact hTc c hc4
            · intro hcomma
              subst hcomma
              exact absurd hc4 (by decide)
          · intro hcomma
            subst hcomma
            exact absurd (hwa ',' hc3) (by decide)
        · intro hcomma
          subst hcomma
          exact absurd hc2 (by decide)
      · exact hx c hc1
    -- the whole line splits at its single comma
    have hassoc : T ++ " ".data ++ (ah :: at2) ++ " = ".data ++ x ++ ", ".data ++
          b ++ ";".data =
        (T ++ " ".data ++ (ah :: at2) ++ " = ".data ++ x) ++
          (',' :: (' ' :: (b ++ [';']))) := by
      simp only [show (", ".data : List Char) = [',', ' '] from rfl,
        show (";".data : List Char) = [';'] from rfl,
        List.append_assoc, List.cons_append, List.nil_append]
    have hcvf : chainVarFind (T ++ " ".data ++ (ah :: at2) ++ " = ".data ++ x ++
        ", ".data ++ b ++ ";".data) = some b := by
      rw [hassoc, chainVarFind_append_skip _ _ hpre]
      exact chainVarFind_comma_hit _ b (chainTry_at b hb hwb)
    -- the type token matches at position zero
    have hp : stripPrefixL T (T ++ " ".data ++ (ah :: at2) ++ " = ".data ++ x ++
        ", ".data ++ b ++ ";".data) =
        some (' ' :: (ah :: (at2 ++ " = ".data ++ x ++ ", ".data ++ b ++ ";".data))) := by
      rw [show T ++ " ".data ++ (ah :: at2) ++ " = ".data ++ x ++ ", ".data ++
            b ++ ";".data =
          T ++ (' ' :: (ah :: (at2 ++ " = ".data ++ x ++ ", ".data ++ b ++ ";".data)))
        from by
          simp only [show (" ".data : List Char) = [' '] from rfl,
            List.append_assoc, List.cons_append, List.nil_append]]
      exact stripPrefixL_append_self T _
    have hothers : ∀ u ∈ typeToks6, ¬u = T →
        typeDeclTryTok false u (T ++ " ".data ++ (ah :: at2) ++ " = ".data ++ x ++
          ", ".data ++ b ++ ";".data) = none := by
      intro u hu hune
      have hT6 := hT
      simp only [typeToks6, List.mem_cons, List.not_mem_nil, or_false] at hT6 hu
      rcases hT6 with rfl | rfl | rfl | rfl | rfl | rfl <;>
        rcases hu with rfl | rfl | rfl | rfl | rfl | rfl <;>
          first
            | (exact absurd rfl hune)
            | rfl
    have htry : typeDeclTry false (T ++ " ".data ++ (ah :: at2) ++ " = ".data ++ x ++
        ", ".data ++ b ++ ";".data) = some T := by
      unfold typeDeclTry
      refine firstSome_of_unique _ T T ?_ typeToks6 hT hothers
      exact typeDeclTryTok_noeq_hit T _ _ _ ah hp rfl hwah
    have htdnf : typeDeclNoEqFind (T ++ " ".data ++ (ah :: at2) ++ " = ".data ++ x ++
        ", ".data ++ b ++ ";".data) = some T := by
      unfold typeDeclNoEqFind
      exact scanFirstB_hit _ none _ T htry
    have hself : replaceFirst (',' :: (' ' :: (b ++ [';'])))
        (',' :: (' ' :: (b ++ [';'])))
        (", ".data ++ b ++ " = ".data ++ z ++ ";".data) =
        ", ".data ++ b ++ " = ".data ++ z ++ ";".data := by
      have h2 := replaceFirst_prefix (',' :: (' ' :: (b ++ [';']))) []
        (", ".data ++ b ++ " = ".data ++ z ++ ";".data) (by simp)
      rwa [List.append_nil, List.append_nil] at h2
    unfold pass1Step
    dsimp only
    rw [hline, hne]
    simp only [Bool.false_eq_true, if_false]
    rw [hcvf]
    unfold chainBranch
    dsimp only
    rw [hguard]
    simp only [Bool.false_eq_true, if_false]
    rw [htdnf]
    dsimp only
    rw [hz]
    simp only [Option.getD_some]
    rw [hzne]
    simp only [Bool.false_eq_true, if_false]
    rw [show (", ".data ++ b ++ ";".data : List Char) = ',' :: (' ' :: (b ++ [';']))
      from rfl]
    rw [hassoc]
    rw [replaceFirst_append_comma _ _ _ _ hpre]
    rw [hself]
    refine congrArg (fun w => (lines.set i w, assocSet uninit b z)) ?_
    simp only [List.append_assoc]
  · decide

/-- Witness for chainFix_rewrites: the universal part applied to the
concrete line "float q = 1.0, r;". -/
theorem chainFix_rewrites_witness :
    pass1Step [] (["float q = 1.0, r;".data], []) 0 =
      (["float q = 1.0, r = 0.0;".data], [("r".data, "0.0".data)]) := by
  have h := chainFix_rewrites.1 [] ["float q = 1.0, r;".data] [] 0 "float".data
    "q".data "1.0".data "r".data "0.0".data (by decide) (by decide) (by decide)
    (by decide) (by decide) (by decide) (by decide) (by decide) (by decide)
  exact h.trans (by decide)
